import Mathlib

/-!
# gicli — verification of the job-orchestration kernel

A shallow embedding, in Lean 4, of the core of the `gicli` HTTP integration
runner: the dependency resolver, the session store, the variable substitutor,
the HTTP client retry loop, the execution pipeline (authentication, 401
re-authentication, retry), the database sink, and the orchestrator main loop.

Each definition is translated from the corresponding JavaScript source file.
External effects (the network, the database server, the filesystem, the
crypto library, `JSON.parse`) are modelled as oracles: lists of pending
outcomes consumed in order, together with a trace of the calls made.
JavaScript objects that flow through the code are modelled by the `JVal`
type below; JavaScript `Map`s and `Set`s by association lists and lists.
-/

namespace Gicli

/-! ## JavaScript-like values

Response payloads, payloads, params and rows are heterogeneous JSON-like
values.  JS numbers are modelled as integers (`int`) plus an opaque
non-integer constructor (`float`); `NaN` and object key collisions are
outside the model.  Object fields keep insertion order, as JS objects do. -/

inductive JVal where
  | null : JVal
  | bool : Bool → JVal
  | int : Int → JVal
  | float : JVal
  | str : String → JVal
  | arr : List JVal → JVal
  | obj : List (String × JVal) → JVal
deriving Repr

/-- First-match lookup in a JS object (keys are unique in well-formed objects). -/
def jGet (fs : List (String × JVal)) (k : String) : Option JVal :=
  match fs with
  | [] => none
  | (k', v) :: rest => if k' = k then some v else jGet rest k

/-- JS truthiness for our value model (`NaN` excluded, so `float` is truthy). -/
def truthy (v : JVal) : Bool :=
  match v with
  | .null => false
  | .bool b => b
  | .int n => n ≠ 0
  | .float => true
  | .str s => s ≠ ""
  | .arr _ => true
  | .obj _ => true

/-- JS `String(v)` coercion, restricted to the values the embedding meets. -/
def jsToString (v : JVal) : String :=
  match v with
  | .null => "null"
  | .bool b => if b then "true" else "false"
  | .int n => toString n
  | .float => "<number>"
  | .str s => s
  | .arr xs => String.intercalate "," (xs.map fun x => jsToStringShallow x)
  | .obj _ => "[object Object]"
where
  jsToStringShallow : JVal → String
  | .null => ""
  | .bool b => if b then "true" else "false"
  | .int n => toString n
  | .float => "<number>"
  | .str s => s
  | .arr _ => ""
  | .obj _ => "[object Object]"

/-- `p` is a prefix of `s` (over characters). -/
def listPrefixOf : List Char → List Char → Bool
  | [], _ => true
  | _ :: _, [] => false
  | a :: as, b :: bs => a = b && listPrefixOf as bs

/-- `p` occurs somewhere inside `s` (over characters). -/
def listInfixOf (p s : List Char) : Bool :=
  if listPrefixOf p s then true
  else
    match s with
    | [] => false
    | _ :: rest => listInfixOf p rest

/-- Substring test, modelling JS `String.prototype.includes`. -/
def jsIncludes (s sub : String) : Bool :=
  listInfixOf sub.toList s.toList

/-! ## Job configuration records

The fields of the configuration objects the JS code reads.  Absent (JS
`undefined`) optional fields are `none`. -/

structure RetryPolicy where
  max_attempts : Option Nat := none
  delay : Option Nat := none
deriving Repr, DecidableEq

structure AuthCfg where
  type : Option String := none
deriving Repr, DecidableEq

structure OutputCfg where
  enabled : Bool := false
  type : Option String := none
  driver : Option String := none
  table : Option String := none
  columns : List (String × String) := []
  data_path : Option String := none
  clear_before_insert : Bool := false
  connection_string : Option String := none
deriving Repr, DecidableEq

structure JobCfg where
  id : String
  type : String := "request"
  method : String := "GET"
  path : String := ""
  headers : List (String × String) := []
  params : List (String × JVal) := []
  payload : Option JVal := none
  timeout : Option Nat := none
  retry_policy : Option RetryPolicy := none
  dependencies : List String := []
  session_name : Option String := none
  auth : Option AuthCfg := none
  response_format : Option String := none
  token_identifier : Option String := none
  token_expiration_identifier : Option String := none
  token_expiration_time : Option Nat := none
  output : Option OutputCfg := none
deriving Repr

structure OriginCfg where
  name : String
  base_url : String
  connection_string : Option String := none
  job : List JobCfg := []
deriving Repr

/-! ## Dependency resolver
Source: `DependencyResolver` (src/cli, dependency-resolver service). -/

/-- `jobMap.get(id)` where the map was built by `jobs.forEach(j => jobMap.set(j.id, j))`
(a later job with the same id overwrites an earlier one). -/
def jobMapGet (jobs : List JobCfg) (i : String) : Option JobCfg :=
  jobs.foldl (fun acc j => if j.id = i then some j else acc) none

/-- `validateDependencies`: the list of error strings collected over all jobs. -/
def validateDependencyErrors (jobs : List JobCfg) : List String :=
  jobs.foldl
    (fun errs j =>
      j.dependencies.foldl
        (fun es depId =>
          if (jobMapGet jobs depId).isSome then es
          else es ++ ["Job \"" ++ j.id ++ "\" depende de \"" ++ depId ++ "\" que não existe"])
        errs)
    []

/-- The resolver's mutable state: the `visiting` and `visited` sets and the
`executionOrder` array. -/
structure RState where
  visiting : List String
  visited : List String
  executionOrder : List String
deriving Repr, DecidableEq

/-- Resolver failure: a thrown `Error(msg)`, or exhaustion of the recursion
fuel the embedding adds (the JS recursion needs none; theorems show the fuel
chosen by `resolveExecutionOrder` is never exhausted). -/
inductive RErr where
  | fuel : RErr
  | thrown : String → RErr
deriving Repr, DecidableEq

/-- `resolveJobDependencies(jobMap, jobId)`: depth-first resolution with
cycle detection, appending `jobId` to the execution order after its
dependencies.  The `for (const depId of dependencies)` loop is a fold that
propagates a thrown error unchanged. -/
def resolveJobDependencies (jobs : List JobCfg) (fuel : Nat) (st : RState)
    (jobId : String) : Except RErr RState :=
  match fuel with
  | 0 => .error .fuel
  | fuel' + 1 =>
    if jobId ∈ st.visited then .ok st
    else if jobId ∈ st.visiting then
      .error (.thrown ("Ciclo de dependências detectado envolvendo job: " ++ jobId))
    else
      match jobMapGet jobs jobId with
      | none => .error (.thrown ("Job " ++ jobId ++ " não encontrado"))
      | some job =>
        match job.dependencies.foldl
            (fun acc d =>
              match acc with
              | Except.error e => Except.error e
              | Except.ok st2 => resolveJobDependencies jobs fuel' st2 d)
            (Except.ok { st with visiting := jobId :: st.visiting }) with
        | .error e => .error e
        | .ok st2 =>
          .ok { visiting := st2.visiting.erase jobId,
                visited := jobId :: st2.visited,
                executionOrder := st2.executionOrder ++ [jobId] }

/-- `getRequiredJobs`'s worklist loop.  The JS array used as a stack is
modelled with its top at the head (so the list is the reverse of the JS
array); `push(...deps)` therefore prepends `deps.reverse`.  The fuel is an
artifact of the embedding; `wFuel` below always suffices. -/
def getRequiredLoop (jobs : List JobCfg) (fuel : Nat) (required : List String)
    (toVisit : List String) : Except RErr (List String) :=
  match fuel, toVisit with
  | 0, _ => .error .fuel
  | _ + 1, [] => .ok required
  | fuel' + 1, jobId :: stack =>
    if jobId ∈ required then getRequiredLoop jobs fuel' required stack
    else
      match jobMapGet jobs jobId with
      | none => getRequiredLoop jobs fuel' (jobId :: required) stack
      | some job =>
        getRequiredLoop jobs fuel' (jobId :: required) (job.dependencies.reverse ++ stack)

/-- Total number of dependency references in the job list. -/
def totalDeps (jobs : List JobCfg) : Nat :=
  (jobs.map (fun j => j.dependencies.length)).sum

/-- Fuel for the worklist: one more than the worst-case number of iterations. -/
def wFuel (jobs : List JobCfg) : Nat :=
  2 + 2 * jobs.length + 2 * totalDeps jobs

/-- Fuel for the DFS: one more than the deepest possible recursion. -/
def rFuel (jobs : List JobCfg) : Nat := jobs.length + 1

/-- `getRequiredJobs(jobs, targetJobId)`. -/
def getRequiredJobs (jobs : List JobCfg) (targetJobId : String) :
    Except RErr (List JobCfg) :=
  match getRequiredLoop jobs (wFuel jobs) [] [targetJobId] with
  | .error e => .error e
  | .ok required => .ok (jobs.filter (fun j => j.id ∈ required))

/-- The `requiredJobs.forEach(job => if (!visited.has(job.id)) resolve(job.id))` loop. -/
def resolveRootsLoop (jobs : List JobCfg) (roots : List JobCfg) (st : RState) :
    Except RErr RState :=
  match roots with
  | [] => .ok st
  | j :: rest =>
    match (if j.id ∈ st.visited then .ok st
           else resolveJobDependencies jobs (rFuel jobs) st j.id) with
    | .error e => .error e
    | .ok st2 => resolveRootsLoop jobs rest st2

/-- `resolveExecutionOrder(jobs, targetJobId)`. -/
def resolveExecutionOrder (jobs : List JobCfg) (targetJobId : Option String) :
    Except RErr (List String) :=
  let errs := validateDependencyErrors jobs
  if errs = [] then
    match targetJobId with
    | some t =>
      match getRequiredJobs jobs t with
      | .error e => .error e
      | .ok requiredJobs =>
        match resolveRootsLoop jobs requiredJobs ⟨[], [], []⟩ with
        | .error e => .error e
        | .ok st => .ok st.executionOrder
    | none =>
      match resolveRootsLoop jobs jobs ⟨[], [], []⟩ with
      | .error e => .error e
      | .ok st => .ok st.executionOrder
  else .error (.thrown ("Erros de dependências:\n" ++ String.intercalate "\n" errs))

/-- Dependency list of the job registered under an id (empty when absent). -/
def depsOfId (jobs : List JobCfg) (a : String) : List String :=
  ((jobMapGet jobs a).map (fun j => j.dependencies)).getD []

/-- One dependency edge: `b` is listed among the dependencies of `a`. -/
def DStep (jobs : List JobCfg) (a b : String) : Prop := b ∈ depsOfId jobs a

/-- The dependency closure: ids reachable from the target along dependency
edges (the target itself included). -/
inductive Reachable (jobs : List JobCfg) (t : String) : String → Prop where
  | refl : Reachable jobs t t
  | step {a b : String} : Reachable jobs t a → DStep jobs a b → Reachable jobs t b

/-- No dependency cycle is reachable from `t`. -/
def AcyclicFrom (jobs : List JobCfg) (t : String) : Prop :=
  ¬ ∃ x, Reachable jobs t x ∧ Relation.TransGen (DStep jobs) x x

/-! ### The specification's description of the resolver

Two definitions written from the specification's words, to be compared with
the embedding above. -/

/-- Modelled from the spec: a depth-first search over the dependency graph
that marks a vertex visited on discovery, explores its dependencies in their
listed order, and emits the vertex after its dependencies (post-order).  The
state is `(visited, order)`.  The fuel is an artifact; `jobs.length + 1`
always suffices on the inputs used. -/
def specDfsVisit (jobs : List JobCfg) (fuel : Nat) (p : List String × List String)
    (v : String) : List String × List String :=
  match fuel with
  | 0 => p
  | fuel' + 1 =>
    if v ∈ p.1 then p
    else
      match (depsOfId jobs v).foldl
          (fun q d => specDfsVisit jobs fuel' q d) (v :: p.1, p.2) with
      | (visited2, order2) => (visited2, order2 ++ [v])

/-- Modelled from the spec: "Result equals the post-order of the DFS rooted
at the target" — the post-order of the single depth-first search that starts
at the target. -/
def rootedPostOrder (jobs : List JobCfg) (t : String) : List String :=
  (specDfsVisit jobs (jobs.length + 1) ([], []) t).2

/-- The post-order of the DFS forest that starts, in declaration order, from
every job of the dependency closure of the target (skipping already-visited
jobs); the closure is read off the rooted DFS's visited set. -/
def forestPostOrder (jobs : List JobCfg) (t : String) : List String :=
  ((jobs.filter (fun j => j.id ∈ (specDfsVisit jobs (jobs.length + 1) ([], []) t).1)).foldl
      (fun p j => specDfsVisit jobs (jobs.length + 1) p j.id)
      ([], [])).2

/-! ### Resolver correctness development -/

/-- The ids of the jobs, in declaration order. -/
def jobIds (jobs : List JobCfg) : List String := jobs.map (fun j => j.id)

/-- All dependency references name existing jobs. -/
def DepsPresent (jobs : List JobCfg) : Prop :=
  ∀ j ∈ jobs, ∀ d ∈ j.dependencies, d ∈ jobIds jobs

/-- A list of ids closed under one dependency step. -/
def DepClosed (jobs : List JobCfg) (l : List String) : Prop :=
  ∀ v ∈ l, ∀ d ∈ depsOfId jobs v, d ∈ l

/-- Topological soundness of an execution order, stated on its reverse (so
the list grows by `cons`): each vertex's dependencies lie strictly below it. -/
inductive TopoRev (jobs : List JobCfg) : List String → Prop where
  | nil : TopoRev jobs []
  | cons {v : String} {l : List String} :
      TopoRev jobs l → (∀ d ∈ depsOfId jobs v, d ∈ l) → TopoRev jobs (v :: l)

theorem jobMapGet_nil (i : String) : jobMapGet [] i = none := rfl

theorem jobMapGet_append_singleton (jobs : List JobCfg) (j : JobCfg) (i : String) :
    jobMapGet (jobs ++ [j]) i = if j.id = i then some j else jobMapGet jobs i := by
  unfold jobMapGet
  rw [List.foldl_append]
  rfl

theorem jobMapGet_eq_none_iff (jobs : List JobCfg) (i : String) :
    jobMapGet jobs i = none ↔ i ∉ jobIds jobs := by
  induction jobs using List.reverseRecOn with
  | nil => simp [jobMapGet_nil, jobIds]
  | append_singleton rest j ih =>
    rw [jobMapGet_append_singleton]
    by_cases hj : j.id = i
    · simp [hj, jobIds]
    · simp only [if_neg hj, ih, jobIds, List.map_append, List.map_cons, List.map_nil]
      simp [jobIds]
      intro _
      exact fun h => hj h.symm

theorem jobMapGet_mem (jobs : List JobCfg) (i : String) (j : JobCfg)
    (h : jobMapGet jobs i = some j) : j ∈ jobs ∧ j.id = i := by
  induction jobs using List.reverseRecOn generalizing j with
  | nil => simp [jobMapGet_nil] at h
  | append_singleton rest a ih =>
    rw [jobMapGet_append_singleton] at h
    by_cases ha : a.id = i
    · rw [if_pos ha] at h
      cases h
      exact ⟨by simp, ha⟩
    · rw [if_neg ha] at h
      have := ih j h
      exact ⟨by simp [this.1], this.2⟩

theorem jobMapGet_self (jobs : List JobCfg) (hn : (jobIds jobs).Nodup)
    (j : JobCfg) (hj : j ∈ jobs) : jobMapGet jobs j.id = some j := by
  induction jobs using List.reverseRecOn with
  | nil => simp at hj
  | append_singleton rest a ih =>
    rw [jobMapGet_append_singleton]
    simp only [jobIds, List.map_append, List.map_cons, List.map_nil] at hn
    have hn' : (jobIds rest).Nodup := (List.nodup_append.mp hn).1
    rcases List.mem_append.mp hj with hmem | hlast
    · have hne : a.id ≠ j.id := by
        intro he
        have hji : j.id ∈ jobIds rest := List.mem_map_of_mem _ hmem
        have := (List.nodup_append.mp hn).2.2
        exact this hji (by simp [he])
      rw [if_neg hne]
      exact ih hn' hmem
    · have : j = a := by simpa using hlast
      subst this
      simp

theorem jobMapGet_isSome_iff (jobs : List JobCfg) (i : String) :
    (jobMapGet jobs i).isSome = true ↔ i ∈ jobIds jobs := by
  rcases h : jobMapGet jobs i with _ | j
  · have := (jobMapGet_eq_none_iff jobs i).mp h
    simp [this]
  · simp only [Option.isSome_some, true_iff]
    have := jobMapGet_mem jobs i j h
    exact this.2 ▸ List.mem_map_of_mem _ this.1

theorem depsOfId_subset_ids (jobs : List JobCfg) (hp : DepsPresent jobs)
    (a : String) : ∀ d ∈ depsOfId jobs a, d ∈ jobIds jobs := by
  intro d hd
  unfold depsOfId at hd
  rcases h : jobMapGet jobs a with _ | j
  · simp [h] at hd
  · rw [h] at hd
    simp at hd
    exact hp j (jobMapGet_mem jobs a j h).1 d hd

theorem reachable_mem_ids (jobs : List JobCfg) (t x : String)
    (hp : DepsPresent jobs) (ht : t ∈ jobIds jobs)
    (hx : Reachable jobs t x) : x ∈ jobIds jobs := by
  induction hx with
  | refl => exact ht
  | step _ hstep ih => exact depsOfId_subset_ids jobs hp _ _ hstep

theorem depClosed_reach (jobs : List JobCfg) (V : List String)
    (hC : DepClosed jobs V) (a : String) (ha : a ∈ V) :
    ∀ x, Reachable jobs a x → x ∈ V := by
  intro x hx
  induction hx with
  | refl => exact ha
  | step _ hstep ih => exact hC _ ih _ hstep

theorem reachable_trans_step (jobs : List JobCfg) (t a b : String)
    (ha : Reachable jobs t a) (hab : Reachable jobs a b) : Reachable jobs t b := by
  induction hab with
  | refl => exact ha
  | step _ hstep ih => exact .step ih hstep

/-- Number of job ids not currently in the `visiting` set: the measure that
bounds the depth of the resolver's recursion. -/
def notCnt (jobs : List JobCfg) (visiting : List String) : Nat :=
  ((jobIds jobs).filter (fun i => decide (i ∉ visiting))).length

theorem length_filter_le_of_imp {α : Type} (l : List α) (p q : α → Bool)
    (h : ∀ x ∈ l, q x = true → p x = true) :
    (l.filter q).length ≤ (l.filter p).length := by
  induction l with
  | nil => simp
  | cons a rest ih =>
    have ih' := ih (fun x hx => h x (List.mem_cons_of_mem _ hx))
    by_cases hq : q a = true
    · have hp := h a (List.mem_cons_self _ _) hq
      simp [List.filter_cons, hq, hp]
      exact ih'
    · rcases hb : p a with _ | _
      · simp [List.filter_cons, hq, hb]
        exact ih'
      · simp [List.filter_cons, hq, hb]
        exact Nat.le_succ_of_le ih'

theorem length_filter_lt_of_witness {α : Type} (l : List α) (p q : α → Bool)
    (h : ∀ x ∈ l, q x = true → p x = true)
    (x0 : α) (hx0 : x0 ∈ l) (hp0 : p x0 = true) (hq0 : q x0 = false) :
    (l.filter q).length < (l.filter p).length := by
  induction l with
  | nil => simp at hx0
  | cons a rest ih =>
    have hle := length_filter_le_of_imp rest p q
      (fun x hx => h x (List.mem_cons_of_mem _ hx))
    rcases List.mem_cons.mp hx0 with rfl | hmem
    · simp [List.filter_cons, hq0, hp0]
      exact Nat.lt_succ_of_le hle
    · have ih' := ih (fun x hx => h x (List.mem_cons_of_mem _ hx)) hmem
      by_cases hq : q a = true
      · have hp := h a (List.mem_cons_self _ _) hq
        simp [List.filter_cons, hq, hp]
        exact ih'
      · rcases hb : p a with _ | _
        · simp [List.filter_cons, hq, hb]
          exact ih'
        · simp [List.filter_cons, hq, hb]
          exact Nat.lt_succ_of_lt ih'

theorem notCnt_cons_lt (jobs : List JobCfg) (visiting : List String)
    (jobId : String) (hin : jobId ∈ jobIds jobs) (hout : jobId ∉ visiting) :
    notCnt jobs (jobId :: visiting) < notCnt jobs visiting := by
  refine length_filter_lt_of_witness _ _ _ ?_ jobId hin ?_ ?_
  · intro x hx hq
    simp only [decide_eq_true_eq] at hq ⊢
    intro hmem
    exact hq (List.mem_cons_of_mem _ hmem)
  · simp [hout]
  · simp

theorem notCnt_nil (jobs : List JobCfg) : notCnt jobs [] = jobs.length := by
  unfold notCnt
  rw [List.filter_eq_self.mpr (by simp)]
  simp [jobIds]

/-- One dependency edge stays inside a `TopoRev` list. -/
theorem topoRev_mem_deps (jobs : List JobCfg) (r : List String)
    (h : TopoRev jobs r) : ∀ v ∈ r, ∀ d ∈ depsOfId jobs v, d ∈ r := by
  induction h with
  | nil => simp
  | cons hrec hdeps ih =>
    intro v hv d hd
    rcases List.mem_cons.mp hv with rfl | hv'
    · exact List.mem_cons_of_mem _ (hdeps d hd)
    · exact List.mem_cons_of_mem _ (ih v hv' d hd)

/-- Splitting a `TopoRev` list at an element: its dependencies lie in the
strictly lower part. -/
theorem topoRev_split (jobs : List JobCfg) (r : List String)
    (h : TopoRev jobs r) : ∀ (p s : List String) (v : String),
    r = p ++ v :: s → ∀ d ∈ depsOfId jobs v, d ∈ s := by
  induction h with
  | nil =>
    intro p s v hps
    exact absurd hps (by simp)
  | @cons w l hrec hdeps ih =>
    intro p s v hps d hd
    cases p with
    | nil =>
      simp at hps
      rcases hps with ⟨rfl, rfl⟩
      exact hdeps d hd
    | cons p0 prest =>
      simp at hps
      exact ih prest s v hps.2 d hd

/-- The invariant the resolver maintains on its mutable state. -/
structure StInv (jobs : List JobCfg) (st : RState) : Prop where
  vis_order : ∀ x, x ∈ st.visited ↔ x ∈ st.executionOrder
  order_nodup : st.executionOrder.Nodup
  topo : TopoRev jobs st.executionOrder.reverse
  disj : ∀ x ∈ st.visiting, x ∉ st.visited

theorem stInv_depClosed (jobs : List JobCfg) (st : RState)
    (h : StInv jobs st) : DepClosed jobs st.visited := by
  intro v hv d hd
  have hvo := (h.vis_order v).mp hv
  have : v ∈ st.executionOrder.reverse := List.mem_reverse.mpr hvo
  have := topoRev_mem_deps jobs _ h.topo v this d hd
  exact (h.vis_order d).mpr (List.mem_reverse.mp this)

/-- Total-correctness statement for `resolveJobDependencies` at a given fuel. -/
def RJDSpec (jobs : List JobCfg) (t : String) (fuel : Nat) : Prop :=
  ∀ (st : RState) (jobId : String),
    DepsPresent jobs → (jobIds jobs).Nodup → AcyclicFrom jobs t →
    notCnt jobs st.visiting < fuel →
    Reachable jobs t jobId →
    (∀ v ∈ st.visiting, Relation.TransGen (DStep jobs) v jobId) →
    StInv jobs st →
    jobId ∈ jobIds jobs →
    ∃ st', resolveJobDependencies jobs fuel st jobId = .ok st' ∧
      st'.visiting = st.visiting ∧
      (∃ tail, st'.executionOrder = st.executionOrder ++ tail) ∧
      StInv jobs st' ∧
      jobId ∈ st'.visited ∧
      (∀ x ∈ st.visited, x ∈ st'.visited) ∧
      (∀ x, x ∈ st'.visited → x ∈ st.visited ∨
        (Reachable jobs t x ∧ x ∉ st.visiting ∧ x ∈ jobIds jobs))

/-- Total-correctness statement for the dependency fold inside
`resolveJobDependencies`, at a given fuel. -/
def RDLSpec (jobs : List JobCfg) (t : String) (fuel : Nat) : Prop :=
  ∀ (st : RState) (ds : List String),
    DepsPresent jobs → (jobIds jobs).Nodup → AcyclicFrom jobs t →
    notCnt jobs st.visiting < fuel →
    (∀ d ∈ ds, Reachable jobs t d) →
    (∀ d ∈ ds, ∀ v ∈ st.visiting, Relation.TransGen (DStep jobs) v d) →
    (∀ d ∈ ds, d ∈ jobIds jobs) →
    StInv jobs st →
    ∃ st', ds.foldl
        (fun acc d =>
          match acc with
          | Except.error e => Except.error e
          | Except.ok st2 => resolveJobDependencies jobs fuel st2 d)
        (Except.ok st) = .ok st' ∧
      st'.visiting = st.visiting ∧
      (∃ tail, st'.executionOrder = st.executionOrder ++ tail) ∧
      StInv jobs st' ∧
      (∀ d ∈ ds, d ∈ st'.visited) ∧
      (∀ x ∈ st.visited, x ∈ st'.visited) ∧
      (∀ x, x ∈ st'.visited → x ∈ st.visited ∨
        (Reachable jobs t x ∧ x ∉ st.visiting ∧ x ∈ jobIds jobs))

theorem rdl_of_rjd (jobs : List JobCfg) (t : String) (fuel : Nat)
    (hRJD : RJDSpec jobs t fuel) : RDLSpec jobs t fuel := by
  intro st ds
  induction ds generalizing st with
  | nil =>
    intro _ _ _ _ _ _ _ hInv
    refine ⟨st, by simp, rfl, ⟨[], by simp⟩, hInv, by simp, ?_, ?_⟩
    · intro x hx; exact hx
    · intro x hx; exact Or.inl hx
  | cons d rest ih =>
    intro hp hn hacyc hfuel hreach hanc hids hInv
    obtain ⟨st2, heq2, hvis2, ⟨tl2, hord2⟩, hInv2, hmem2, hmono2, hnew2⟩ :=
      hRJD st d hp hn hacyc hfuel (hreach d (by simp))
        (fun v hv => hanc d (by simp) v hv) hInv (hids d (by simp))
    obtain ⟨st3, heq3, hvis3, ⟨tl3, hord3⟩, hInv3, hmem3, hmono3, hnew3⟩ :=
      ih st2 hp hn hacyc (by rw [hvis2]; exact hfuel)
        (fun x hx => hreach x (by simp [hx]))
        (fun x hx v hv => hanc x (by simp [hx]) v (by rwa [hvis2] at hv))
        (fun x hx => hids x (by simp [hx])) hInv2
    refine ⟨st3, ?_, by rw [hvis3, hvis2], ⟨tl2 ++ tl3, by rw [hord3, hord2, List.append_assoc]⟩,
      hInv3, ?_, fun x hx => hmono3 x (hmono2 x hx), ?_⟩
    · simp only [List.foldl_cons, heq2]
      exact heq3
    · intro x hx
      rcases List.mem_cons.mp hx with rfl | hx'
      · exact hmono3 x hmem2
      · exact hmem3 x hx'
    · intro x hx
      rcases hnew3 x hx with hx2 | ⟨hr, hv, hi⟩
      · rcases hnew2 x hx2 with h0 | ⟨hr, hv, hi⟩
        · exact Or.inl h0
        · exact Or.inr ⟨hr, hv, hi⟩
      · rw [hvis2] at hv
        exact Or.inr ⟨hr, hv, hi⟩

theorem rjd_spec (jobs : List JobCfg) (t : String) :
    ∀ fuel, RJDSpec jobs t fuel := by
  intro fuel
  induction fuel with
  | zero =>
    intro st jobId _ _ _ hfuel
    exact absurd hfuel (by omega)
  | succ fuel ih =>
    have hRDL := rdl_of_rjd jobs t fuel ih
    intro st jobId hp hn hacyc hfuel hreach hanc hInv hid
    by_cases hvd : jobId ∈ st.visited
    · refine ⟨st, ?_, rfl, ⟨[], by simp⟩, hInv, hvd, fun x hx => hx, fun x hx => Or.inl hx⟩
      simp [resolveJobDependencies, hvd]
    · by_cases hvg : jobId ∈ st.visiting
      · exact absurd ⟨jobId, hreach, hanc jobId hvg⟩ hacyc
      · rcases hj : jobMapGet jobs jobId with _ | job
        · exact absurd hid (by rwa [← jobMapGet_eq_none_iff jobs jobId])
        · have hjm := jobMapGet_mem jobs jobId job hj
          have hdeps_eq : depsOfId jobs jobId = job.dependencies := by
            simp [depsOfId, hj]
          have hcnt : notCnt jobs (jobId :: st.visiting) < fuel := by
            have h1 := notCnt_cons_lt jobs st.visiting jobId hid hvg
            omega
          have hst1Inv : StInv jobs ⟨jobId :: st.visiting, st.visited, st.executionOrder⟩ := by
            refine ⟨hInv.vis_order, hInv.order_nodup, hInv.topo, ?_⟩
            intro x hx
            rcases List.mem_cons.mp hx with rfl | hx'
            · exact hvd
            · exact hInv.disj x hx'
          obtain ⟨st2, heq2, hvis2, ⟨tl2, hord2⟩, hInv2, hmem2, hmono2, hnew2⟩ :=
            hRDL ⟨jobId :: st.visiting, st.visited, st.executionOrder⟩ job.dependencies
              hp hn hacyc hcnt
              (fun d hd => Reachable.step hreach (by rw [DStep, hdeps_eq]; exact hd))
              (fun d hd v hv => by
                rcases List.mem_cons.mp hv with rfl | hv'
                · exact Relation.TransGen.single (by rw [DStep, hdeps_eq]; exact hd)
                · exact Relation.TransGen.tail (hanc v hv') (by rw [DStep, hdeps_eq]; exact hd))
              (fun d hd => hp job hjm.1 d hd)
              hst1Inv
          have hjid_not2 : jobId ∉ st2.visited := by
            intro hx
            rcases hnew2 jobId hx with h0 | ⟨_, hv, _⟩
            · exact hvd h0
            · exact hv (by simp)
          have hdeps_vis : ∀ d ∈ depsOfId jobs jobId, d ∈ st2.visited := by
            rw [hdeps_eq]; exact hmem2
          refine ⟨⟨st2.visiting.erase jobId, jobId :: st2.visited, st2.executionOrder ++ [jobId]⟩,
            ?_, ?_, ⟨tl2 ++ [jobId], by rw [hord2, List.append_assoc]⟩, ?_, by simp, ?_, ?_⟩
          · simp only [resolveJobDependencies, if_neg hvd, if_neg hvg, hj, heq2]
          · rw [hvis2]
            simp [List.erase_cons_head]
          · constructor
            · intro x
              constructor
              · intro hx
                rcases List.mem_cons.mp hx with rfl | hx'
                · simp
                · simp only [List.mem_append, List.mem_singleton]
                  exact Or.inl ((hInv2.vis_order x).mp hx')
              · intro hx
                rcases List.mem_append.mp hx with hx' | hx'
                · exact List.mem_cons_of_mem _ ((hInv2.vis_order x).mpr hx')
                · simp at hx'
                  simp [hx']
            · have : jobId ∉ st2.executionOrder := fun hx =>
                hjid_not2 ((hInv2.vis_order jobId).mpr hx)
              simp [List.nodup_append, hInv2.order_nodup, this]
            · rw [List.reverse_append]
              simp only [List.reverse_singleton, List.singleton_append]
              refine TopoRev.cons hInv2.topo ?_
              intro d hd
              exact List.mem_reverse.mpr ((hInv2.vis_order d).mp (hdeps_vis d hd))
            · intro x hx
              have hxv : x ∈ st.visiting := by
                rwa [hvis2, List.erase_cons_head] at hx
              intro hmem
              rcases List.mem_cons.mp hmem with rfl | hmem'
              · exact hvg hxv
              · exact hInv2.disj x (by rw [hvis2]; exact List.mem_cons_of_mem _ hxv) hmem'
          · intro x hx
            exact List.mem_cons_of_mem _ (hmono2 x hx)
          · intro x hx
            rcases List.mem_cons.mp hx with rfl | hx'
            · exact Or.inr ⟨hreach, hvg, hid⟩
            · rcases hnew2 x hx' with h0 | ⟨hr, hv, hi⟩
              · exact Or.inl h0
              · refine Or.inr ⟨hr, fun hmem => hv (List.mem_cons_of_mem _ hmem), hi⟩

theorem resolveRootsLoop_spec (jobs : List JobCfg) (t : String) :
    ∀ (roots : List JobCfg) (st : RState),
    DepsPresent jobs → (jobIds jobs).Nodup → AcyclicFrom jobs t →
    (∀ r ∈ roots, Reachable jobs t r.id ∧ r.id ∈ jobIds jobs) →
    st.visiting = [] → StInv jobs st →
    ∃ st', resolveRootsLoop jobs roots st = .ok st' ∧ st'.visiting = [] ∧
      StInv jobs st' ∧
      (∀ r ∈ roots, r.id ∈ st'.visited) ∧
      (∀ x ∈ st.visited, x ∈ st'.visited) ∧
      (∀ x, x ∈ st'.visited → x ∈ st.visited ∨ (Reachable jobs t x ∧ x ∈ jobIds jobs)) ∧
      (∃ tail, st'.executionOrder = st.executionOrder ++ tail) := by
  intro roots
  induction roots with
  | nil =>
    intro st _ _ _ _ hvis hInv
    exact ⟨st, by simp [resolveRootsLoop], hvis, hInv, by simp, fun x hx => hx,
      fun x hx => Or.inl hx, ⟨[], by simp⟩⟩
  | cons r rest ih =>
    intro st hp hn hacyc hroots hvis hInv
    by_cases hrv : r.id ∈ st.visited
    · obtain ⟨st', heq', hvis', hInv', hmem', hmono', hnew', htail'⟩ :=
        ih st hp hn hacyc (fun x hx => hroots x (by simp [hx])) hvis hInv
      refine ⟨st', ?_, hvis', hInv', ?_, hmono', hnew', htail'⟩
      · simp only [resolveRootsLoop, if_pos hrv]
        exact heq'
      · intro x hx
        rcases List.mem_cons.mp hx with rfl | hx'
        · exact hmono' _ hrv
        · exact hmem' x hx'
    · have hcnt : notCnt jobs st.visiting < rFuel jobs := by
        rw [hvis, notCnt_nil]
        simp [rFuel]
      obtain ⟨st2, heq2, hvis2, ⟨tl2, hord2⟩, hInv2, hmem2, hmono2, hnew2⟩ :=
        rjd_spec jobs t (rFuel jobs) st r.id hp hn hacyc hcnt (hroots r (by simp)).1
          (fun v hv => absurd hv (by rw [hvis]; simp)) hInv (hroots r (by simp)).2
      obtain ⟨st', heq', hvis', hInv', hmem', hmono', hnew', ⟨tl', hord'⟩⟩ :=
        ih st2 hp hn hacyc (fun x hx => hroots x (by simp [hx]))
          (by rw [hvis2, hvis]) hInv2
      refine ⟨st', ?_, hvis', hInv', ?_, fun x hx => hmono' x (hmono2 x hx), ?_,
        ⟨tl2 ++ tl', by rw [hord', hord2, List.append_assoc]⟩⟩
      · simp only [resolveRootsLoop, if_neg hrv, heq2]
        exact heq'
      · intro x hx
        rcases List.mem_cons.mp hx with rfl | hx'
        · exact hmono' _ hmem2
        · exact hmem' x hx'
      · intro x hx
        rcases hnew' x hx with hx2 | ⟨hr', hi⟩
        · rcases hnew2 x hx2 with h0 | ⟨hr', _, hi⟩
          · exact Or.inl h0
          · exact Or.inr ⟨hr', hi⟩
        · exact Or.inr ⟨hr', hi⟩

theorem validate_inner_id (jobs : List JobCfg) (ds : List String)
    (hds : ∀ d ∈ ds, (jobMapGet jobs d).isSome = true) (jid : String) :
    ∀ acc, ds.foldl
      (fun es depId =>
        if (jobMapGet jobs depId).isSome then es
        else es ++ ["Job \"" ++ jid ++ "\" depende de \"" ++ depId ++ "\" que não existe"])
      acc = acc := by
  induction ds with
  | nil => intro acc; rfl
  | cons d rest ih =>
    intro acc
    simp only [List.foldl_cons, if_pos (hds d (by simp))]
    exact ih (fun x hx => hds x (by simp [hx])) acc

theorem validate_nil (jobs : List JobCfg) (hp : DepsPresent jobs) :
    validateDependencyErrors jobs = [] := by
  unfold validateDependencyErrors
  have : ∀ (l : List JobCfg), (∀ j ∈ l, j ∈ jobs) → ∀ acc, l.foldl
      (fun errs j =>
        j.dependencies.foldl
          (fun es depId =>
            if (jobMapGet jobs depId).isSome then es
            else es ++ ["Job \"" ++ j.id ++ "\" depende de \"" ++ depId ++ "\" que não existe"])
          errs)
      acc = acc := by
    intro l
    induction l with
    | nil => intro _ acc; rfl
    | cons j rest ih =>
      intro hl acc
      simp only [List.foldl_cons]
      rw [validate_inner_id jobs j.dependencies
        (fun d hd => (jobMapGet_isSome_iff jobs d).mpr (hp j (hl j (by simp)) d hd)) j.id acc]
      exact ih (fun x hx => hl x (by simp [hx])) acc
  exact this jobs (fun j hj => hj) []

theorem topo_positions (jobs : List JobCfg) (O : List String)
    (h : TopoRev jobs O.reverse) (hn : O.Nodup) :
    ∀ (i j : Fin O.length), O.get j ∈ depsOfId jobs (O.get i) → (j : Nat) < (i : Nat) := by
  intro i j hd
  have hdecomp : O = O.take i ++ O.get i :: O.drop (i + 1) := by
    conv_lhs => rw [← List.take_append_drop (i : Nat) O]
    congr 1
    rw [List.drop_eq_getElem_cons i.isLt]
    simp [List.get_eq_getElem]
  have hrev : O.reverse = (O.drop (i + 1)).reverse ++ O.get i :: (O.take i).reverse := by
    conv_lhs => rw [hdecomp]
    rw [List.reverse_append, List.reverse_cons, List.append_assoc]
    simp
  have hmem_take : O.get j ∈ (O.take i).reverse :=
    topoRev_split jobs O.reverse h _ _ _ hrev _ hd
  have hmem_take' : O.get j ∈ O.take (i : Nat) := List.mem_reverse.mp hmem_take
  obtain ⟨k, hk, hgetk⟩ := List.getElem_of_mem hmem_take'
  have hki : k < (i : Nat) := by
    have := hk
    simp [List.length_take] at this
    omega
  have hklen : k < O.length := by
    have hle : (i : Nat) ≤ O.length := Nat.le_of_lt i.isLt
    omega
  have hOk : O.get ⟨k, hklen⟩ = O.get j := by
    have h1 : (O.take (i : Nat)).get ⟨k, hk⟩ = O.get ⟨k, hklen⟩ := by
      simp [List.get_eq_getElem, List.getElem_take]
    rw [← h1]
    rw [show (O.take (i : Nat)).get ⟨k, hk⟩
        = (O.take (i : Nat))[k] from rfl, hgetk]
  have hkj : (⟨k, hklen⟩ : Fin O.length) = j := (List.Nodup.get_inj_iff hn).mp hOk
  have hkj2 : k = (j : Nat) := congrArg Fin.val hkj
  omega

/-- The decreasing measure of `getRequiredJobs`'s worklist loop. -/
def wPhi (jobs : List JobCfg) (required toVisit : List String) : Nat :=
  toVisit.length +
    (((jobIds jobs).filter (fun i => decide (i ∉ required))).map
      (fun i => 1 + (depsOfId jobs i).length)).sum

theorem sum_filter_cons_required (l : List String) (hl : l.Nodup)
    (required : List String) (x : String) (hx : x ∈ l) (hnx : x ∉ required)
    (f : String → Nat) :
    ((l.filter (fun i => decide (i ∉ required))).map f).sum
      = f x + ((l.filter (fun i => decide (i ∉ (x :: required)))).map f).sum := by
  induction l with
  | nil => simp at hx
  | cons a rest ih =>
    have hnd := List.nodup_cons.mp hl
    rcases List.mem_cons.mp hx with rfl | hmem
    · have hcong : rest.filter (fun i => decide (i ∉ required))
          = rest.filter (fun i => decide (i ∉ (x :: required))) := by
        apply List.filter_congr
        intro y hy
        have hyx : y ≠ x := fun he => hnd.1 (he ▸ hy)
        simp [hyx]
      simp only [List.filter_cons]
      rw [hcong]
      simp [hnx]
    · have ih' := ih hnd.2 hmem
      have hax : ¬ (a = x) := fun he => hnd.1 (he ▸ hmem)
      by_cases hb : a ∈ required
      · simp only [List.filter_cons]
        have h1 : (decide (a ∉ required)) = false := by simp [hb]
        have h2 : (decide (a ∉ (x :: required))) = false := by simp [hb]
        rw [h1, h2]
        simpa using ih'
      · have h1 : (decide (a ∉ required)) = true := by simp [hb]
        have h2 : (decide (a ∉ (x :: required))) = true := by simp [hax, hb]
        simp only [List.filter_cons, h1, h2, if_true, List.map_cons, List.sum_cons]
        omega

theorem getRequiredLoop_spec (jobs : List JobCfg) (t : String) :
    ∀ (fuel : Nat) (required toVisit : List String),
    DepsPresent jobs → (jobIds jobs).Nodup → t ∈ jobIds jobs →
    wPhi jobs required toVisit < fuel →
    (∀ x ∈ required, Reachable jobs t x) →
    (∀ x ∈ toVisit, Reachable jobs t x) →
    (∀ x ∈ required, ∀ d ∈ depsOfId jobs x, d ∈ required ∨ d ∈ toVisit) →
    (t ∈ required ∨ t ∈ toVisit) →
    ∃ req, getRequiredLoop jobs fuel required toVisit = .ok req ∧
      (∀ x ∈ req, Reachable jobs t x) ∧ DepClosed jobs req ∧ t ∈ req := by
  intro fuel
  induction fuel with
  | zero =>
    intro required toVisit _ _ _ hphi
    exact absurd hphi (by omega)
  | succ fuel ih =>
    intro required toVisit hp hn ht hphi hreq hvis hclosed htin
    cases toVisit with
    | nil =>
      refine ⟨required, by simp [getRequiredLoop], hreq, ?_, ?_⟩
      · intro x hx d hd
        rcases hclosed x hx d hd with h | h
        · exact h
        · simp at h
      · rcases htin with h | h
        · exact h
        · simp at h
    | cons jobId stack =>
      by_cases hmem : jobId ∈ required
      · have hphi' : wPhi jobs required stack < fuel := by
          have : wPhi jobs required (jobId :: stack) = 1 + wPhi jobs required stack := by
            simp [wPhi]
            omega
          omega
        obtain ⟨req, heq, h1, h2, h3⟩ := ih required stack hp hn ht hphi' hreq
          (fun x hx => hvis x (by simp [hx]))
          (fun x hx d hd => by
            rcases hclosed x hx d hd with h | h
            · exact Or.inl h
            · rcases List.mem_cons.mp h with rfl | h'
              · exact Or.inl hmem
              · exact Or.inr h')
          (by
            rcases htin with h | h
            · exact Or.inl h
            · rcases List.mem_cons.mp h with rfl | h'
              · exact Or.inl hmem
              · exact Or.inr h')
        exact ⟨req, by simp only [getRequiredLoop, if_pos hmem]; exact heq, h1, h2, h3⟩
      · have hreach := hvis jobId (by simp)
        have hid : jobId ∈ jobIds jobs := reachable_mem_ids jobs t jobId hp ht hreach
        rcases hj : jobMapGet jobs jobId with _ | job
        · exact absurd hid (by rwa [← jobMapGet_eq_none_iff jobs jobId])
        · have hdeps_eq : depsOfId jobs jobId = job.dependencies := by
            simp [depsOfId, hj]
          have hsum := sum_filter_cons_required (jobIds jobs) hn required jobId hid hmem
            (fun i => 1 + (depsOfId jobs i).length)
          have hphi' : wPhi jobs (jobId :: required)
              (job.dependencies.reverse ++ stack) < fuel := by
            have hold : wPhi jobs required (jobId :: stack)
                = 2 + job.dependencies.length + stack.length
                  + (((jobIds jobs).filter (fun i => decide (i ∉ (jobId :: required)))).map
                      (fun i => 1 + (depsOfId jobs i).length)).sum := by
              simp only [wPhi, List.length_cons, hsum, hdeps_eq]
              omega
            have hnew : wPhi jobs (jobId :: required) (job.dependencies.reverse ++ stack)
                = job.dependencies.length + stack.length
                  + (((jobIds jobs).filter (fun i => decide (i ∉ (jobId :: required)))).map
                      (fun i => 1 + (depsOfId jobs i).length)).sum := by
              simp [wPhi]
            omega
          obtain ⟨req, heq, h1, h2, h3⟩ := ih (jobId :: required)
            (job.dependencies.reverse ++ stack) hp hn ht hphi'
            (fun x hx => by
              rcases List.mem_cons.mp hx with rfl | hx'
              · exact hreach
              · exact hreq x hx')
            (fun x hx => by
              rcases List.mem_append.mp hx with hx' | hx'
              · exact Reachable.step hreach
                  (by rw [DStep, hdeps_eq]; exact List.mem_reverse.mp hx')
              · exact hvis x (by simp [hx']))
            (fun x hx d hd => by
              rcases List.mem_cons.mp hx with rfl | hx'
              · rw [hdeps_eq] at hd
                exact Or.inr (List.mem_append.mpr (Or.inl (List.mem_reverse.mpr hd)))
              · rcases hclosed x hx' d hd with h | h
                · exact Or.inl (List.mem_cons_of_mem _ h)
                · rcases List.mem_cons.mp h with rfl | h'
                  · exact Or.inl (by simp)
                  · exact Or.inr (List.mem_append.mpr (Or.inr h')))
            (by
              rcases htin with h | h
              · exact Or.inl (List.mem_cons_of_mem _ h)
              · rcases List.mem_cons.mp h with rfl | h'
                · exact Or.inl (by simp)
                · exact Or.inr (List.mem_append.mpr (Or.inr h')))
          refine ⟨req, ?_, h1, h2, h3⟩
          simp only [getRequiredLoop, if_neg hmem, hj]
          exact heq

theorem sum_map_one_add {α : Type} (l : List α) (g : α → Nat) :
    (l.map (fun x => 1 + g x)).sum = l.length + (l.map g).sum := by
  induction l with
  | nil => simp
  | cons a rest ih => simp [ih]; omega

theorem wPhi_init (jobs : List JobCfg) (hn : (jobIds jobs).Nodup) (t : String) :
    wPhi jobs [] [t] < wFuel jobs := by
  unfold wPhi wFuel
  rw [List.filter_eq_self.mpr (by simp)]
  have h1 : ((jobIds jobs).map (fun i => 1 + (depsOfId jobs i).length)).sum
      = jobs.length + totalDeps jobs := by
    unfold jobIds totalDeps
    rw [List.map_map]
    have h2 : (jobs.map ((fun i => 1 + (depsOfId jobs i).length) ∘ fun j => j.id))
        = jobs.map (fun j => 1 + j.dependencies.length) := by
      apply List.map_congr_left
      intro j hj
      simp [Function.comp, depsOfId, jobMapGet_self jobs hn j hj]
    rw [h2, sum_map_one_add]
  rw [h1]
  simp only [List.length_singleton]
  omega

/-- C1: For every list of jobs `J` (each with a list of dependency ids all
present in `J` and with no dependency cycle reachable from the target) and
every target job id `t` in `J`, the order `O` returned by
`DependencyResolver.resolveExecutionOrder(J, t)` is a topological order of
the dependency closure of `t`: for all positions `i` and `j`, if the job at
`O[i]` lists `O[j]` among its dependencies then `j < i`, and `O` contains
exactly the jobs reachable from `t` via dependencies.  (Job ids are unique,
per the origin invariant.) -/
theorem C1_resolveExecutionOrder_topological (jobs : List JobCfg) (t : String)
    (hp : DepsPresent jobs) (hn : (jobIds jobs).Nodup)
    (ht : t ∈ jobIds jobs) (hacyc : AcyclicFrom jobs t) :
    ∃ O, resolveExecutionOrder jobs (some t) = .ok O ∧
      O.Nodup ∧
      (∀ (i j : Fin O.length), O.get j ∈ depsOfId jobs (O.get i) → (j : Nat) < (i : Nat)) ∧
      (∀ x, x ∈ O ↔ Reachable jobs t x) := by
  obtain ⟨req, heqR, hreqSound, hreqClosed, htin⟩ :=
    getRequiredLoop_spec jobs t (wFuel jobs) [] [t] hp hn ht (wPhi_init jobs hn t)
      (by simp) (by intro x hx; simp at hx; subst hx; exact Reachable.refl)
      (by simp) (Or.inr (by simp))
  have hInv0 : StInv jobs ⟨[], [], []⟩ := by
    refine ⟨by simp, by simp, ?_, by simp⟩
    simp only [List.reverse_nil]
    exact TopoRev.nil
  obtain ⟨st', heqL, hvis', hInv', hmem', hmono', hnew', ⟨tl', hord'⟩⟩ :=
    resolveRootsLoop_spec jobs t (jobs.filter (fun j => j.id ∈ req)) ⟨[], [], []⟩
      hp hn hacyc
      (by
        intro r hr
        have := List.mem_filter.mp hr
        have hrid : r.id ∈ req := by simpa using this.2
        exact ⟨hreqSound r.id hrid, List.mem_map_of_mem _ this.1⟩)
      rfl hInv0
  refine ⟨st'.executionOrder, ?_, hInv'.order_nodup,
    topo_positions jobs st'.executionOrder hInv'.topo hInv'.order_nodup, ?_⟩
  · simp only [resolveExecutionOrder, validate_nil jobs hp, if_pos rfl,
      getRequiredJobs, heqR, resolveRootsLoop, heqL]
    simp
  · intro x
    constructor
    · intro hx
      have hxv : x ∈ st'.visited := (hInv'.vis_order x).mpr hx
      rcases hnew' x hxv with h0 | ⟨hr, _⟩
      · simp at h0
      · exact hr
    · intro hx
      have hxreq : x ∈ req := depClosed_reach jobs req hreqClosed t htin x hx
      have hxid : x ∈ jobIds jobs := reachable_mem_ids jobs t x hp ht hx
      obtain ⟨j, hj, hjid⟩ := List.mem_map.mp hxid
      have hjf : j ∈ jobs.filter (fun j => j.id ∈ req) :=
        List.mem_filter.mpr ⟨hj, by simp [hjid, hxreq]⟩
      have := hmem' j hjf
      rw [hjid] at this
      exact (hInv'.vis_order x).mp this

/-! ### Concrete inputs for the resolver claims -/

/-- A two-job chain: an auth job and a request job depending on it. -/
def jobsC1 : List JobCfg :=
  [{ id := "login", type := "auth" }, { id := "fetch", dependencies := ["login"] }]

theorem jobsC1_step (a b : String) (h : DStep jobsC1 a b) :
    a = "fetch" ∧ b = "login" := by
  unfold DStep depsOfId jobMapGet jobsC1 at h
  simp only [List.foldl_cons, List.foldl_nil] at h
  by_cases h2 : "fetch" = a
  · refine ⟨h2.symm, ?_⟩
    simp [if_pos h2] at h
    simpa using h
  · by_cases h1 : "login" = a
    · rw [if_neg h2, if_pos h1] at h
      simp at h
    · rw [if_neg h2, if_neg h1] at h
      simp at h

theorem jobsC1_acyclic : AcyclicFrom jobsC1 "fetch" := by
  rintro ⟨x, _, hcyc⟩
  have h : ∀ y z, Relation.TransGen (DStep jobsC1) y z → y = "fetch" ∧ z = "login" := by
    intro y z h
    induction h with
    | single hs => exact jobsC1_step _ _ hs
    | tail hab hbc ih =>
      have h2 := jobsC1_step _ _ hbc
      exact absurd (ih.2.symm.trans h2.1) (by decide)
  have hx := h x x hcyc
  exact absurd (hx.1.symm.trans hx.2) (by decide)

/-- Witness for C1: the hypotheses hold and the conclusion follows on the
concrete two-job chain. -/
theorem C1_witness :
    DepsPresent jobsC1 ∧ (jobIds jobsC1).Nodup ∧ "fetch" ∈ jobIds jobsC1 ∧
      AcyclicFrom jobsC1 "fetch" ∧
      ∃ O, resolveExecutionOrder jobsC1 (some "fetch") = .ok O ∧ O.Nodup ∧
        (∀ (i j : Fin O.length),
          O.get j ∈ depsOfId jobsC1 (O.get i) → (j : Nat) < (i : Nat)) ∧
        (∀ x, x ∈ O ↔ Reachable jobsC1 "fetch" x) :=
  ⟨by unfold DepsPresent; decide, by decide, by decide, jobsC1_acyclic,
    C1_resolveExecutionOrder_topological jobsC1 "fetch" (by unfold DepsPresent; decide)
      (by decide) (by decide) jobsC1_acyclic⟩

/-- Four jobs, declared m, a, b, t: `t` depends on `[a, b]`, `b` on `[m]`.
The resolver starts a DFS from every closure member in declaration order, so
`m` (a declaration-early leaf) is emitted first; a DFS rooted at `t` would
emit `a` first. -/
def jobsC6 : List JobCfg :=
  [{ id := "m" }, { id := "a" }, { id := "b", dependencies := ["m"] },
   { id := "t", dependencies := ["a", "b"] }]

/-- C6 counterexample: on `jobsC6` the resolver's output is not the
post-order of the DFS rooted at the target (under either reading of the
spec's tie-break, since here dependency-list order and declaration order
coincide). -/
theorem C6_counterexample :
    resolveExecutionOrder jobsC6 (some "t") = .ok ["m", "a", "b", "t"] ∧
    rootedPostOrder jobsC6 "t" = ["a", "m", "b", "t"] ∧
    (["m", "a", "b", "t"] : List String) ≠ ["a", "m", "b", "t"] :=
  ⟨rfl, rfl, by decide⟩

/-! ### Simulation of the resolver by the specification DFS -/

theorem notCnt_mono (jobs : List JobCfg) (S S' : List String)
    (h : ∀ x ∈ S, x ∈ S') : notCnt jobs S' ≤ notCnt jobs S := by
  apply length_filter_le_of_imp
  intro x _ hq
  simp only [decide_eq_true_eq] at hq ⊢
  exact fun hmem => hq (h x hmem)

theorem notCnt_le_length (jobs : List JobCfg) (S : List String) :
    notCnt jobs S ≤ jobs.length := by
  calc notCnt jobs S ≤ (jobIds jobs).length := List.length_filter_le _ _
  _ = jobs.length := by simp [jobIds]

/-- Simulation statement for a single DFS frame: the resolver call succeeds
and the specification DFS, run from a corresponding visited set, consumes the
same vertex and emits the same order. -/
def SimRJD (jobs : List JobCfg) (t : String) (fuel : Nat) : Prop :=
  ∀ (st : RState) (jobId : String) (S : List String) (sf : Nat),
    DepsPresent jobs → (jobIds jobs).Nodup → AcyclicFrom jobs t →
    notCnt jobs st.visiting < fuel →
    Reachable jobs t jobId →
    (∀ v ∈ st.visiting, Relation.TransGen (DStep jobs) v jobId) →
    StInv jobs st →
    jobId ∈ jobIds jobs →
    (∀ x, x ∈ S ↔ (x ∈ st.visited ∨ x ∈ st.visiting)) →
    notCnt jobs S < sf →
    ∃ st' S', resolveJobDependencies jobs fuel st jobId = .ok st' ∧
      specDfsVisit jobs sf (S, st.executionOrder) jobId = (S', st'.executionOrder) ∧
      st'.visiting = st.visiting ∧
      StInv jobs st' ∧
      jobId ∈ st'.visited ∧
      (∀ x ∈ st.visited, x ∈ st'.visited) ∧
      (∀ x, x ∈ S' ↔ (x ∈ st'.visited ∨ x ∈ st'.visiting))

/-- Simulation statement for the dependency fold. -/
def SimRDL (jobs : List JobCfg) (t : String) (fuel : Nat) : Prop :=
  ∀ (st : RState) (ds : List String) (S : List String) (sf : Nat),
    DepsPresent jobs → (jobIds jobs).Nodup → AcyclicFrom jobs t →
    notCnt jobs st.visiting < fuel →
    (∀ d ∈ ds, Reachable jobs t d) →
    (∀ d ∈ ds, ∀ v ∈ st.visiting, Relation.TransGen (DStep jobs) v d) →
    (∀ d ∈ ds, d ∈ jobIds jobs) →
    StInv jobs st →
    (∀ x, x ∈ S ↔ (x ∈ st.visited ∨ x ∈ st.visiting)) →
    notCnt jobs S < sf →
    ∃ st' S', ds.foldl
        (fun acc d =>
          match acc with
          | Except.error e => Except.error e
          | Except.ok st2 => resolveJobDependencies jobs fuel st2 d)
        (Except.ok st) = .ok st' ∧
      ds.foldl (fun q d => specDfsVisit jobs sf q d) (S, st.executionOrder)
        = (S', st'.executionOrder) ∧
      st'.visiting = st.visiting ∧
      StInv jobs st' ∧
      (∀ d ∈ ds, d ∈ st'.visited) ∧
      (∀ x ∈ st.visited, x ∈ st'.visited) ∧
      (∀ x, x ∈ S' ↔ (x ∈ st'.visited ∨ x ∈ st'.visiting))

theorem sim_rdl_of_sim_rjd (jobs : List JobCfg) (t : String) (fuel : Nat)
    (hRJD : SimRJD jobs t fuel) : SimRDL jobs t fuel := by
  intro st ds
  induction ds generalizing st with
  | nil =>
    intro S sf _ _ _ _ _ _ _ hInv hcorr _
    exact ⟨st, S, by simp, by simp, rfl, hInv, by simp, fun x hx => hx, hcorr⟩
  | cons d rest ih =>
    intro S sf hp hn hacyc hfuel hreach hanc hids hInv hcorr hsf
    obtain ⟨st2, S2, heq2, hspec2, hvis2, hInv2, hmem2, hmono2, hcorr2⟩ :=
      hRJD st d S sf hp hn hacyc hfuel (hreach d (by simp))
        (fun v hv => hanc d (by simp) v hv) hInv (hids d (by simp)) hcorr hsf
    have hSsub : ∀ x ∈ S, x ∈ S2 := by
      intro x hx
      rcases (hcorr x).mp hx with h | h
      · exact (hcorr2 x).mpr (Or.inl (hmono2 x h))
      · exact (hcorr2 x).mpr (Or.inr (by rwa [hvis2]))
    have hsf2 : notCnt jobs S2 < sf :=
      Nat.lt_of_le_of_lt (notCnt_mono jobs S S2 hSsub) hsf
    obtain ⟨st3, S3, heq3, hspec3, hvis3, hInv3, hdv3, hmono3, hcorr3⟩ :=
      ih st2 S2 sf hp hn hacyc (by rw [hvis2]; exact hfuel)
        (fun x hx => hreach x (by simp [hx]))
        (fun x hx v hv => hanc x (by simp [hx]) v (by rwa [hvis2] at hv))
        (fun x hx => hids x (by simp [hx])) hInv2 hcorr2 hsf2
    refine ⟨st3, S3, ?_, ?_, by rw [hvis3, hvis2], hInv3, ?_,
      fun x hx => hmono3 x (hmono2 x hx), hcorr3⟩
    · simp only [List.foldl_cons, heq2]
      exact heq3
    · simp only [List.foldl_cons, hspec2]
      exact hspec3
    · intro x hx
      rcases List.mem_cons.mp hx with rfl | hx'
      · exact hmono3 x hmem2
      · exact hdv3 x hx'

theorem sim_rjd (jobs : List JobCfg) (t : String) :
    ∀ fuel, SimRJD jobs t fuel := by
  intro fuel
  induction fuel with
  | zero =>
    intro st jobId S sf _ _ _ hfuel
    exact absurd hfuel (by omega)
  | succ fuel ih =>
    have hRDL := sim_rdl_of_sim_rjd jobs t fuel ih
    intro st jobId S sf hp hn hacyc hfuel hreach hanc hInv hid hcorr hsf
    cases sf with
    | zero => exact absurd hsf (by omega)
    | succ sf =>
      by_cases hvd : jobId ∈ st.visited
      · have hS : jobId ∈ S := (hcorr jobId).mpr (Or.inl hvd)
        refine ⟨st, S, ?_, ?_, rfl, hInv, hvd, fun x hx => hx, hcorr⟩
        · simp [resolveJobDependencies, hvd]
        · simp [specDfsVisit, hS]
      · by_cases hvg : jobId ∈ st.visiting
        · exact absurd ⟨jobId, hreach, hanc jobId hvg⟩ hacyc
        · have hS : jobId ∉ S := by
            intro hmem
            rcases (hcorr jobId).mp hmem with h | h
            · exact hvd h
            · exact hvg h
          rcases hj : jobMapGet jobs jobId with _ | job
          · exact absurd hid (by rwa [← jobMapGet_eq_none_iff jobs jobId])
          · have hjm := jobMapGet_mem jobs jobId job hj
            have hdeps_eq : depsOfId jobs jobId = job.dependencies := by
              simp [depsOfId, hj]
            have hcnt : notCnt jobs (jobId :: st.visiting) < fuel := by
              have h1 := notCnt_cons_lt jobs st.visiting jobId hid hvg
              omega
            have hscnt : notCnt jobs (jobId :: S) < sf := by
              have h1 := notCnt_cons_lt jobs S jobId hid hS
              omega
            have hst1Inv : StInv jobs ⟨jobId :: st.visiting, st.visited, st.executionOrder⟩ := by
              refine ⟨hInv.vis_order, hInv.order_nodup, hInv.topo, ?_⟩
              intro x hx
              rcases List.mem_cons.mp hx with rfl | hx'
              · exact hvd
              · exact hInv.disj x hx'
            obtain ⟨st2, S2, heq2, hspec2, hvis2, hInv2, hdv2, hmem2, hcorr2⟩ :=
              hRDL ⟨jobId :: st.visiting, st.visited, st.executionOrder⟩ job.dependencies
                (jobId :: S) sf hp hn hacyc hcnt
                (fun d hd => Reachable.step hreach (by rw [DStep, hdeps_eq]; exact hd))
                (fun d hd v hv => by
                  rcases List.mem_cons.mp hv with rfl | hv'
                  · exact Relation.TransGen.single (by rw [DStep, hdeps_eq]; exact hd)
                  · exact Relation.TransGen.tail (hanc v hv') (by rw [DStep, hdeps_eq]; exact hd))
                (fun d hd => hp job hjm.1 d hd)
                hst1Inv
                (fun x => by
                  constructor
                  · intro hx
                    rcases List.mem_cons.mp hx with rfl | hx'
                    · exact Or.inr (by simp)
                    · rcases (hcorr x).mp hx' with h | h
                      · exact Or.inl h
                      · exact Or.inr (List.mem_cons_of_mem _ h)
                  · intro hx
                    rcases hx with h | h
                    · exact List.mem_cons_of_mem _ ((hcorr x).mpr (Or.inl h))
                    · rcases List.mem_cons.mp h with rfl | h'
                      · simp
                      · exact List.mem_cons_of_mem _ ((hcorr x).mpr (Or.inr h')))
                hscnt
            refine ⟨⟨st2.visiting.erase jobId, jobId :: st2.visited,
                st2.executionOrder ++ [jobId]⟩, S2, ?_, ?_, ?_, ?_, by simp, ?_, ?_⟩
            · simp only [resolveJobDependencies, if_neg hvd, if_neg hvg, hj, heq2]
            · have hspec2' : List.foldl (fun q d => specDfsVisit jobs sf q d)
                  (jobId :: S, st.executionOrder) job.dependencies
                  = (S2, st2.executionOrder) := hspec2
              simp only [specDfsVisit, hdeps_eq]
              rw [if_neg (by simpa using hS)]
              simp [hspec2']
            · rw [hvis2]
              simp [List.erase_cons_head]
            · constructor
              · intro x
                constructor
                · intro hx
                  rcases List.mem_cons.mp hx with rfl | hx'
                  · simp
                  · simp only [List.mem_append, List.mem_singleton]
                    exact Or.inl ((hInv2.vis_order x).mp hx')
                · intro hx
                  rcases List.mem_append.mp hx with hx' | hx'
                  · exact List.mem_cons_of_mem _ ((hInv2.vis_order x).mpr hx')
                  · simp at hx'
                    simp [hx']
              · have hjid_not2 : jobId ∉ st2.visited := by
                  intro hx
                  exact hInv2.disj jobId (by rw [hvis2]; simp) hx
                have : jobId ∉ st2.executionOrder := fun hx =>
                  hjid_not2 ((hInv2.vis_order jobId).mpr hx)
                simp [List.nodup_append, hInv2.order_nodup, this]
              · rw [List.reverse_append]
                simp only [List.reverse_singleton, List.singleton_append]
                refine TopoRev.cons hInv2.topo ?_
                intro d hd
                rw [hdeps_eq] at hd
                exact List.mem_reverse.mpr ((hInv2.vis_order d).mp (hdv2 d hd))
              · intro x hx
                have hxv : x ∈ st.visiting := by
                  rwa [hvis2, List.erase_cons_head] at hx
                intro hmem
                rcases List.mem_cons.mp hmem with rfl | hmem'
                · exact hvg hxv
                · exact hInv2.disj x (by rw [hvis2]; exact List.mem_cons_of_mem _ hxv) hmem'
            · intro x hx
              exact List.mem_cons_of_mem _ (hmem2 x hx)
            · intro x
              rw [hcorr2 x]
              have hv2 : x ∈ st2.visiting ↔ x ∈ jobId :: st.visiting := by rw [hvis2]
              have hv' : (x ∈ st2.visiting.erase jobId) ↔ x ∈ st.visiting := by
                rw [hvis2, List.erase_cons_head]
              constructor
              · intro hx
                rcases hx with h | h
                · exact Or.inl (List.mem_cons_of_mem _ h)
                · rcases List.mem_cons.mp (hv2.mp h) with rfl | h'
                  · exact Or.inl (by simp)
                  · exact Or.inr (hv'.mpr h')
              · intro hx
                rcases hx with h | h
                · rcases List.mem_cons.mp h with rfl | h'
                  · exact Or.inr (hv2.mpr (by simp))
                  · exact Or.inl h'
                · exact Or.inr (hv2.mpr (List.mem_cons_of_mem _ (hv'.mp h)))

theorem sim_roots (jobs : List JobCfg) (t : String) :
    ∀ (roots : List JobCfg) (st : RState) (S : List String),
    DepsPresent jobs → (jobIds jobs).Nodup → AcyclicFrom jobs t →
    (∀ r ∈ roots, Reachable jobs t r.id ∧ r.id ∈ jobIds jobs) →
    st.visiting = [] → StInv jobs st →
    (∀ x, x ∈ S ↔ (x ∈ st.visited ∨ x ∈ st.visiting)) →
    ∃ st' S', resolveRootsLoop jobs roots st = .ok st' ∧
      roots.foldl (fun p j => specDfsVisit jobs (jobs.length + 1) p j.id)
        (S, st.executionOrder) = (S', st'.executionOrder) ∧
      st'.visiting = [] ∧ StInv jobs st' ∧
      (∀ x, x ∈ S' ↔ (x ∈ st'.visited ∨ x ∈ st'.visiting)) := by
  intro roots
  induction roots with
  | nil =>
    intro st S _ _ _ _ hvis hInv hcorr
    exact ⟨st, S, by simp [resolveRootsLoop], by simp, hvis, hInv, hcorr⟩
  | cons r rest ih =>
    intro st S hp hn hacyc hroots hvis hInv hcorr
    by_cases hrv : r.id ∈ st.visited
    · have hS : r.id ∈ S := (hcorr r.id).mpr (Or.inl hrv)
      obtain ⟨st', S', heq', hspec', hvis', hInv', hcorr'⟩ :=
        ih st S hp hn hacyc (fun x hx => hroots x (by simp [hx])) hvis hInv hcorr
      refine ⟨st', S', ?_, ?_, hvis', hInv', hcorr'⟩
      · simp only [resolveRootsLoop, if_pos hrv]
        exact heq'
      · simp only [List.foldl_cons, specDfsVisit]
        rw [if_pos (by simpa using hS)]
        exact hspec'
    · have hcnt : notCnt jobs st.visiting < rFuel jobs := by
        rw [hvis, notCnt_nil]
        simp [rFuel]
      have hscnt : notCnt jobs S < jobs.length + 1 :=
        Nat.lt_succ_of_le (notCnt_le_length jobs S)
      obtain ⟨st2, S2, heq2, hspec2, hvis2, hInv2, hjmem2, hmono2, hcorr2⟩ :=
        sim_rjd jobs t (rFuel jobs) st r.id S (jobs.length + 1) hp hn hacyc hcnt
          (hroots r (by simp)).1
          (fun v hv => absurd hv (by rw [hvis]; simp)) hInv (hroots r (by simp)).2
          hcorr hscnt
      obtain ⟨st', S', heq', hspec', hvis', hInv', hcorr'⟩ :=
        ih st2 S2 hp hn hacyc (fun x hx => hroots x (by simp [hx]))
          (by rw [hvis2, hvis]) hInv2 hcorr2
      refine ⟨st', S', ?_, ?_, hvis', hInv', hcorr'⟩
      · simp only [resolveRootsLoop, if_neg hrv, heq2]
        exact heq'
      · simp only [List.foldl_cons, hspec2]
        exact hspec'

/-- C6 (amended): For every acyclic job list and target `t` (dependencies
present, ids unique), the order returned by `resolveExecutionOrder(jobs, t)`
equals the post-order of the depth-first search forest obtained by starting,
in declaration order, from every job of the dependency closure of `t`
(skipping already-visited jobs), each search exploring a job's dependencies
in their listed order — not the post-order of the single DFS rooted at `t`. -/
theorem C6_resolveExecutionOrder_forest (jobs : List JobCfg) (t : String)
    (hp : DepsPresent jobs) (hn : (jobIds jobs).Nodup)
    (ht : t ∈ jobIds jobs) (hacyc : AcyclicFrom jobs t) :
    resolveExecutionOrder jobs (some t) = .ok (forestPostOrder jobs t) := by
  obtain ⟨req, heqR, hreqSound, hreqClosed, htin⟩ :=
    getRequiredLoop_spec jobs t (wFuel jobs) [] [t] hp hn ht (wPhi_init jobs hn t)
      (by simp) (by intro x hx; simp at hx; subst hx; exact Reachable.refl)
      (by simp) (Or.inr (by simp))
  have hInv0 : StInv jobs ⟨[], [], []⟩ := by
    refine ⟨by simp, by simp, ?_, by simp⟩
    simp only [List.reverse_nil]
    exact TopoRev.nil
  have hcorr0 : ∀ x : String, x ∈ ([] : List String) ↔
      (x ∈ (⟨[], [], []⟩ : RState).visited ∨ x ∈ (⟨[], [], []⟩ : RState).visiting) := by
    simp
  have hcnt0 : notCnt jobs (⟨[], [], []⟩ : RState).visiting < rFuel jobs := by
    rw [show (⟨[], [], []⟩ : RState).visiting = [] from rfl, notCnt_nil]
    simp [rFuel]
  have hscnt0 : notCnt jobs [] < jobs.length + 1 :=
    Nat.lt_succ_of_le (notCnt_le_length jobs [])
  obtain ⟨stT, ST, heqT, hspecT, hvisT, hInvT, htmemT, hmonoT, hcorrT⟩ :=
    sim_rjd jobs t (rFuel jobs) ⟨[], [], []⟩ t [] (jobs.length + 1) hp hn hacyc hcnt0
      Reachable.refl (fun v hv => absurd hv (by simp)) hInv0 ht hcorr0 hscnt0
  obtain ⟨stT', heqT', _, _, hInvT', _, _, hnewT'⟩ :=
    rjd_spec jobs t (rFuel jobs) ⟨[], [], []⟩ t hp hn hacyc hcnt0 Reachable.refl
      (fun v hv => absurd hv (by simp)) hInv0 ht
  have hTeq : stT' = stT := by
    have := heqT'.symm.trans heqT
    exact Except.ok.inj this
  subst hTeq
  have hclo : ∀ x, x ∈ ST ↔ Reachable jobs t x := by
    intro x
    constructor
    · intro hx
      rcases (hcorrT x).mp hx with h | h
      · rcases hnewT' x h with h0 | ⟨hr, _, _⟩
        · simp at h0
        · exact hr
      · rw [hvisT] at h
        simp at h
    · intro hx
      have hmem : x ∈ stT'.visited :=
        depClosed_reach jobs stT'.visited (stInv_depClosed jobs stT' hInvT') t htmemT x hx
      exact (hcorrT x).mpr (Or.inl hmem)
  have hfeq : jobs.filter (fun j => decide (j.id ∈ req))
      = jobs.filter (fun j => decide (j.id ∈ (specDfsVisit jobs (jobs.length + 1)
          ([], []) t).1)) := by
    apply List.filter_congr
    intro j _
    have h1 : (specDfsVisit jobs (jobs.length + 1) ([], []) t).1 = ST := by
      rw [show ((⟨[], [], []⟩ : RState).executionOrder) = [] from rfl] at hspecT
      rw [hspecT]
    rw [h1]
    apply decide_eq_decide.mpr
    constructor
    · intro hmem
      exact (hclo j.id).mpr (hreqSound j.id hmem)
    · intro hmem
      exact depClosed_reach jobs req hreqClosed t htin j.id ((hclo j.id).mp hmem)
  obtain ⟨stF, SF, heqF, hspecF, hvisF, hInvF, hcorrF⟩ :=
    sim_roots jobs t (jobs.filter (fun j => decide (j.id ∈ req))) ⟨[], [], []⟩ []
      hp hn hacyc
      (by
        intro r hr
        have := List.mem_filter.mp hr
        have hrid : r.id ∈ req := by simpa using this.2
        exact ⟨hreqSound r.id hrid, List.mem_map_of_mem _ this.1⟩)
      rfl hInv0 hcorr0
  have hforest : forestPostOrder jobs t = stF.executionOrder := by
    unfold forestPostOrder
    rw [← hfeq]
    rw [show ((⟨[], [], []⟩ : RState).executionOrder) = [] from rfl] at hspecF
    rw [hspecF]
  rw [hforest]
  simp only [resolveExecutionOrder, validate_nil jobs hp, if_pos rfl,
    getRequiredJobs, heqR, heqF]
  simp

/-- Witness for the amended C6 on the concrete two-job chain. -/
theorem C6_amended_witness :
    DepsPresent jobsC1 ∧ (jobIds jobsC1).Nodup ∧ "fetch" ∈ jobIds jobsC1 ∧
      AcyclicFrom jobsC1 "fetch" ∧
      resolveExecutionOrder jobsC1 (some "fetch") = .ok (forestPostOrder jobsC1 "fetch") ∧
      forestPostOrder jobsC1 "fetch" = ["login", "fetch"] :=
  ⟨by unfold DepsPresent; decide, by decide, by decide, jobsC1_acyclic,
    C6_resolveExecutionOrder_forest jobsC1 "fetch" (by unfold DepsPresent; decide)
      (by decide) (by decide) jobsC1_acyclic, rfl⟩

/-! ## Session store
Source: `SessionService` (session service).  `Date.now()` is passed in as
`now` (milliseconds); a JS `Map` is an association list keeping insertion
order, `set` overwriting in place. -/

structure SessionEntry where
  value : JVal
  expiresAt : Option Nat
  createdAt : Nat
deriving Repr

/-- `Map.get`: first (unique) binding for the key. -/
def mapGet {α : Type} (m : List (String × α)) (k : String) : Option α :=
  match m with
  | [] => none
  | (k', v) :: rest => if k' = k then some v else mapGet rest k

/-- `Map.set`: overwrite in place, or append a new binding. -/
def mapSet {α : Type} (m : List (String × α)) (k : String) (v : α) :
    List (String × α) :=
  if m.any (fun p => p.1 = k) then
    m.map (fun p => if p.1 = k then (k, v) else p)
  else m ++ [(k, v)]

/-- `Map.delete`. -/
def mapDelete {α : Type} (m : List (String × α)) (k : String) :
    List (String × α) :=
  m.filter (fun p => !(p.1 = k))

/-- `SessionService.set(key, value, ttlSeconds)`: `ttlSeconds ? Date.now() +
ttlSeconds*1000 : null` — note that a `ttlSeconds` of 0 is falsy in JS and
yields a never-expiring entry. -/
def sessionSet (sessions : List (String × SessionEntry)) (key : String)
    (value : JVal) (ttlSeconds : Option Nat) (now : Nat) :
    List (String × SessionEntry) :=
  let expiresAt : Option Nat :=
    match ttlSeconds with
    | some t => if t ≠ 0 then some (now + t * 1000) else none
    | none => none
  mapSet sessions key ⟨value, expiresAt, now⟩

/-- `SessionService.get(key)`: `null` when missing; lazily evicts an entry
whose `expiresAt` lies strictly in the past.  Returns the value (if any) and
the updated map. -/
def sessionGet (sessions : List (String × SessionEntry)) (key : String)
    (now : Nat) : Option JVal × List (String × SessionEntry) :=
  match mapGet sessions key with
  | none => (none, sessions)
  | some s =>
    match s.expiresAt with
    | some exp => if now > exp then (none, mapDelete sessions key) else (some s.value, sessions)
    | none => (some s.value, sessions)

/-- `SessionService.has(key)`. -/
def sessionHas (sessions : List (String × SessionEntry)) (key : String)
    (now : Nat) : Bool × List (String × SessionEntry) :=
  match mapGet sessions key with
  | none => (false, sessions)
  | some s =>
    match s.expiresAt with
    | some exp => if now > exp then (false, mapDelete sessions key) else (true, sessions)
    | none => (true, sessions)

/-- The orchestrator's result-store step (src/cli/index.js main loop):
`sessionService.set('job_result_' + jobId, resultValue, 3600000)` — the
literal `3600000` is passed as the `ttlSeconds` parameter, with the comment
"1 hora de TTL". -/
def storeJobResult (sessions : List (String × SessionEntry)) (jobId : String)
    (resultValue : JVal) (now : Nat) : List (String × SessionEntry) :=
  sessionSet sessions ("job_result_" ++ jobId) resultValue (some 3600000) now

/-- C4: the claim says the job result stored under `job_result_<id>` carries
a time-to-live of exactly one hour — absent on reads more than 3600 seconds
after completion, present within that window.  The code instead passes
3,600,000 (milliseconds) to a parameter interpreted as seconds, so the entry
expires only 3,600,000,000 ms (about 41.7 days) after the write: it is still
present 7200 s later, contradicting the claim; it only disappears past
`now + 3600000 * 1000` ms. -/
theorem C4_job_result_ttl (jobId : String) (v : JVal) (now : Nat) :
    (sessionGet (storeJobResult [] jobId v now) ("job_result_" ++ jobId)
        (now + 7200 * 1000)).1 = some v ∧
    (sessionGet (storeJobResult [] jobId v now) ("job_result_" ++ jobId)
        (now + 3600000 * 1000)).1 = some v ∧
    (sessionGet (storeJobResult [] jobId v now) ("job_result_" ++ jobId)
        (now + 3600000 * 1000 + 1)).1 = none ∧
    mapGet (storeJobResult [] jobId v now) ("job_result_" ++ jobId)
      = some ⟨v, some (now + 3600000 * 1000), now⟩ := by
  refine ⟨?_, ?_, ?_, ?_⟩
  · simp [storeJobResult, sessionSet, mapSet, sessionGet, mapGet]
  · simp [storeJobResult, sessionSet, mapSet, sessionGet, mapGet]
  · simp [storeJobResult, sessionSet, mapSet, sessionGet, mapGet]
  · simp [storeJobResult, sessionSet, mapSet, mapGet]

/-! ## Variable substitutor
Source: `EnvironmentService.substitute` / `substituteDeep` (environment
service) and the `$SESSION_` pass of `ExecutionService.substituteVariables`.
The regex passes are modelled as left-to-right scanners over characters; the
fuel arguments are artifacts (`length + 1` always suffices).  AES decryption
(`decrypt`) is external crypto and is passed in as an oracle
`dec : String → Option String` (`none` = decryption failure, which the code
catches, keeping the original string). -/

/-- First character of the regex class `[A-Z_]`. -/
def identStartChar (c : Char) : Bool :=
  (decide ('A' ≤ c) && decide (c ≤ 'Z')) || decide (c = '_')

/-- Character of the regex class `[A-Z0-9_]`. -/
def identChar (c : Char) : Bool :=
  (decide ('A' ≤ c) && decide (c ≤ 'Z'))
    || (decide ('0' ≤ c) && decide (c ≤ '9')) || decide (c = '_')

/-- The `/\$ENV_([A-Z_][A-Z0-9_]*)/g` replacement pass.  At a failed match the
regex engine moves one position right; since a match must begin with a `$` and
`ENV_` contains none, emitting the scanned prefix literally is equivalent. -/
def envScan (env : String → Option String) (fuel : Nat) (s : List Char) : List Char :=
  match fuel with
  | 0 => s
  | fuel' + 1 =>
    match s with
    | [] => []
    | '$' :: 'E' :: 'N' :: 'V' :: '_' :: rest =>
      match rest with
      | [] => ['$', 'E', 'N', 'V', '_']
      | c :: cs =>
        if identStartChar c then
          match env ("ENV_" ++ String.mk (c :: cs.takeWhile identChar)) with
          | some v => v.toList ++ envScan env fuel' (cs.dropWhile identChar)
          | none =>
            '$' :: 'E' :: 'N' :: 'V' :: '_' :: c ::
              (cs.takeWhile identChar ++ envScan env fuel' (cs.dropWhile identChar))
        else '$' :: 'E' :: 'N' :: 'V' :: '_' :: envScan env fuel' (c :: cs)
    | c :: cs => c :: envScan env fuel' cs

/-- Left and right curly braces, used to build and scan template markers. -/
def lbrace : Char := Char.ofNat 123

def rbrace : Char := Char.ofNat 125

/-- The `/\{\{([^}]+)\}\}/g` replacement pass: a match is two opening braces,
a nonempty run without a closing brace, and two closing braces; an
unresolvable path keeps the match literally.  On a failed match the engine
moves one position right. -/
def tmplScan (resolve : String → Option String) (fuel : Nat) (s : List Char) : List Char :=
  match fuel with
  | 0 => s
  | fuel' + 1 =>
    match s with
    | [] => []
    | a :: rest =>
      if a = lbrace then
        match rest with
        | [] => [a]
        | b :: rest1 =>
          if b = lbrace then
            match rest1.takeWhile (fun c => !(c = rbrace)) with
            | [] => a :: tmplScan resolve fuel' rest
            | c0 :: cap' =>
              match rest1.dropWhile (fun c => !(c = rbrace)) with
              | c1 :: c2 :: rest2 =>
                if c2 = rbrace then
                  match resolve (String.mk (c0 :: cap')) with
                  | some v => v.toList ++ tmplScan resolve fuel' rest2
                  | none => a :: b :: ((c0 :: cap') ++ c1 :: c2 :: tmplScan resolve fuel' rest2)
                else a :: tmplScan resolve fuel' rest
              | _ => a :: tmplScan resolve fuel' rest
          else a :: tmplScan resolve fuel' rest
      else a :: tmplScan resolve fuel' rest

/-- Digit test for bracket indices. -/
def isDigitChar (c : Char) : Bool := decide ('0' ≤ c) && decide (c ≤ '9')

/-- Parse a decimal numeral. -/
def digitsToNat (cs : List Char) : Nat :=
  cs.foldl (fun acc c => acc * 10 + (c.toNat - 48)) 0

/-- Whitespace for `String.prototype.trim` (ASCII subset). -/
def isWsChar (c : Char) : Bool :=
  c = ' ' || c = '\t' || c = '\n' || c = '\r'

/-- JS `s.trim()` (character-list implementation, so proofs can compute). -/
def strTrim (s : String) : String :=
  String.mk (((s.toList.dropWhile isWsChar).reverse.dropWhile isWsChar).reverse)

/-- JS `s.split(sep)` for a one-character separator: `""` splits to `[""]`,
separators at the ends produce empty fields. -/
def splitOnChar (sep : Char) : List Char → List (List Char)
  | [] => [[]]
  | c :: rest =>
    match splitOnChar sep rest with
    | [] => [[]]
    | g :: gs => if c = sep then [] :: g :: gs else (c :: g) :: gs

/-- JS `path.split(Char.ofNat 46)` — dot-separated parts. -/
def splitOnDot (s : String) : List String :=
  (splitOnChar '.' s.toList).map String.mk

/-- JS `s.toUpperCase()` (ASCII). -/
def strToUpper (s : String) : String :=
  String.mk (s.toList.map (fun c =>
    if decide ('a' ≤ c) && decide (c ≤ 'z') then Char.ofNat (c.toNat - 32) else c))

/-- The `^([^[\]]+)(\[(\d+)\])?$` match inside `resolveTemplatePath`:
a bracket-free field name and an optional numeric index. -/
def parseArrayPart (part : String) : Option (String × Option Nat) :=
  let cs := part.toList
  let field := cs.takeWhile (fun c => !(c = '[' || c = ']'))
  let rest := cs.dropWhile (fun c => !(c = '[' || c = ']'))
  if field.isEmpty then none
  else
    match rest with
    | [] => some (String.mk field, none)
    | '[' :: rest2 =>
      let digits := rest2.takeWhile isDigitChar
      match digits, rest2.dropWhile isDigitChar with
      | _ :: _, [']'] => some (String.mk field, some (digitsToNat digits))
      | _, _ => none
    | _ => none

/-- Field access `part in current` / `current[part]`, for objects and (with a
numeric key) arrays, as the navigation loops of the source do. -/
def jIndex (v : JVal) (part : String) : Option JVal :=
  match v with
  | .obj fs => jGet fs part
  | .arr xs =>
    let cs := part.toList
    if !cs.isEmpty && cs.all isDigitChar then xs.get? (digitsToNat cs) else none
  | _ => none

/-- The navigation loop of `resolveTemplatePath` over the remaining parts. -/
def tmplNav (v : JVal) (parts : List String) : Except String JVal :=
  match parts with
  | [] => .ok v
  | part :: rest =>
    match parseArrayPart part with
    | some (field, idxOpt) =>
      match jIndex v field with
      | none => .error ("Campo " ++ field ++ " não encontrado")
      | some v1 =>
        match idxOpt with
        | none => tmplNav v1 rest
        | some idx =>
          match v1 with
          | .arr xs =>
            match xs.get? idx with
            | some v2 => tmplNav v2 rest
            | none => .error ("Índice " ++ toString idx ++ " fora dos limites do array")
          | _ => .error ("Campo " ++ field ++ " não é um array")
    | none =>
      match jIndex v part with
      | none => .error ("Campo " ++ part ++ " não encontrado")
      | some v1 => tmplNav v1 rest

/-- `resolveTemplatePath(templatePath, jobResults)`. -/
def resolveTemplatePath (jobResults : List (String × JVal)) (templatePath : String) :
    Except String JVal :=
  let parts := splitOnDot (strTrim templatePath)
  if parts.length < 2 then
    .error ("Template path deve ter pelo menos job_id.data: " ++ templatePath)
  else
    match parts with
    | [] => .error "unreachable"
    | jobId :: restParts =>
      match mapGet jobResults jobId with
      | none => .error ("Resultado do job " ++ jobId ++ " não encontrado ou não possui dados")
      | some jobResult =>
        match jobResult with
        | .obj fs =>
          match jGet fs "data" with
          | some d =>
            if truthy d then tmplNav d restParts
            else .error ("Resultado do job " ++ jobId ++ " não encontrado ou não possui dados")
          | none => .error ("Resultado do job " ++ jobId ++ " não encontrado ou não possui dados")
        | _ => .error ("Resultado do job " ++ jobId ++ " não encontrado ou não possui dados")

/-- The template-replacement callback: `value !== undefined ? String(value) :
match`, with resolution failures caught (keeping the match). -/
def tmplResolve (jobResults : List (String × JVal)) (path : String) : Option String :=
  match resolveTemplatePath jobResults path with
  | .ok v => some (jsToString v)
  | .error _ => none

/-- Environment variable resolution of the `$ENV_` pass: the per-origin cache
first, then `process.env`; `none` keeps the placeholder. -/
def envVarLookup (procEnv : String → Option String)
    (envCache : List (String × List (String × String))) (originName : Option String)
    (fullVarName : String) : Option String :=
  match originName with
  | some o =>
    match mapGet envCache o with
    | some originVars =>
      match mapGet originVars fullVarName with
      | some v => some v
      | none => procEnv fullVarName
    | none => procEnv fullVarName
  | none => procEnv fullVarName

/-- `EnvironmentService.substitute(text, originName, jobResults)`:
decrypt----`$ENV_`----`{{path}}`, in that order. -/
def substituteModel (dec : String → Option String) (procEnv : String → Option String)
    (envCache : List (String × List (String × String))) (originName : Option String)
    (jobResults : List (String × JVal)) (text : String) : String :=
  let r0 :=
    if listPrefixOf "ENC:".toList text.toList then
      match dec text with
      | some plain => plain
      | none => text
    else text
  let r1 := String.mk (envScan (envVarLookup procEnv envCache originName)
    (r0.length + 1) r0.toList)
  String.mk (tmplScan (tmplResolve jobResults) (r1.length + 1) r1.toList)

/-- `EnvironmentService.substituteDeep` over our value model.  The fuel is an
artifact bounding the recursion depth. -/
def substituteDeepJ (dec procEnv : String → Option String)
    (envCache : List (String × List (String × String))) (originName : Option String)
    (jobResults : List (String × JVal)) (fuel : Nat) (v : JVal) : JVal :=
  match fuel with
  | 0 => v
  | fuel' + 1 =>
    match v with
    | .str s => .str (substituteModel dec procEnv envCache originName jobResults s)
    | .arr xs => .arr (xs.map (substituteDeepJ dec procEnv envCache originName jobResults fuel'))
    | .obj fs => .obj (fs.map (fun p =>
        (p.1, substituteDeepJ dec procEnv envCache originName jobResults fuel' p.2)))
    | other => other

/-- Depth fuel used at `substituteDeep` call sites. -/
def jFuel : Nat := 1000

/-! ## System state and effect oracles

The network, the database server and the file sink are outside the program:
they are modelled as lists of pending outcomes consumed in order, with a
trace of the calls made.  The fetch-level response parsing of
`parseResponse` (content-type dispatch) is folded into the oracle, which
yields the already-parsed `data`.  `Date.now()` is the constant `now` of the
state (time does not advance during a run).  `JSON.parse` is passed in as an
oracle `jparse`. -/

structure FetchCall where
  method : String
  url : String
deriving Repr, DecidableEq

inductive FetchOut where
  | err (msg : String)
  | resp (status : Nat) (statusText : String) (headers : List (String × String)) (data : JVal)
deriving Repr

inductive DbOp where
  | connect (driver : String) (connStr : String)
  | query (sql : String)
  | insert (sql : String) (params : List JVal)
  | disconnect
deriving Repr

inductive DbOut where
  | ok (rows : List JVal)
  | err (msg : String)
deriving Repr

structure SysState where
  now : Nat
  env : List (String × String)
  envCache : List (String × List (String × String))
  sessions : List (String × SessionEntry)
  activeSessions : List (String × String)
  runningJobs : List String
  authRetryAttempted : Bool
  fetches : List FetchOut
  fetchTrace : List FetchCall
  dbOutcomes : List DbOut
  dbTrace : List DbOp
  transportConnected : Bool
  fileOutcomes : List (Option JVal)
  fileTrace : List String
deriving Repr

/-- The effect monad of the embedding: JS exceptions over mutable state. -/
abbrev M (α : Type) := ExceptT String (StateM SysState) α

/-- Run an embedded computation on a state. -/
def runM {α : Type} (m : M α) (st : SysState) : Except String α × SysState :=
  (ExceptT.run m).run st

/-- One `fetch` call: consume the next pending outcome and record the call. -/
def fetchOnce (method url : String) : M FetchOut := do
  let st ← get
  match st.fetches with
  | [] => do
    set { st with fetchTrace := st.fetchTrace ++ [FetchCall.mk method url] }
    pure (FetchOut.err "fetch failed")
  | o :: rest => do
    set { st with fetches := rest, fetchTrace := st.fetchTrace ++ [FetchCall.mk method url] }
    pure o

/-- One database-driver call: consume the next pending outcome and record it. -/
def dbCall (op : DbOp) : M DbOut := do
  let st ← get
  match st.dbOutcomes with
  | [] => do
    set { st with dbTrace := st.dbTrace ++ [op] }
    pure (DbOut.err "db unavailable")
  | o :: rest => do
    set { st with dbOutcomes := rest, dbTrace := st.dbTrace ++ [op] }
    pure o

/-- Lift a pure `Except` into the monad. -/
def ofExceptM {α : Type} : Except String α → M α
  | .ok a => pure a
  | .error e => throw e

/-! ## HTTP client
Source: `HttpClientService.request` (http-client service). -/

structure HttpOptions where
  headers : List (String × String) := []
  body : Option JVal := none
  timeout : Nat := 30000
  retries : Nat := 3
  retryDelay : Nat := 1000
deriving Repr

structure HttpResp where
  status : Nat
  statusText : String
  headers : List (String × String)
  data : JVal
  url : String
deriving Repr

/-- The attempt loop of `request`: `k` attempts remain (current included).  A
non-2xx response raises `HTTP <status>: <statusText>`; an error is retried
unless this was the last attempt or the message names a 4xx other than 408. -/
def requestGo (method url : String) (retryDelay : Nat) (k : Nat) : M HttpResp :=
  match k with
  | 0 => throw "no attempts"
  | k' + 1 => do
    let o ← fetchOnce method url
    match o with
    | .resp status statusText hs data =>
      if 200 ≤ status && status < 300 then
        pure { status := status, statusText := statusText, headers := hs,
               data := data, url := url }
      else
        let msg := "HTTP " ++ toString status ++ ": " ++ statusText
        if k' = 0 || (jsIncludes msg "HTTP 4" && !(jsIncludes msg "408")) then throw msg
        else requestGo method url retryDelay k'
    | .err m =>
      if k' = 0 || (jsIncludes m "HTTP 4" && !(jsIncludes m "408")) then throw m
      else requestGo method url retryDelay k'

/-- `HttpClientService.request(method, url, options)`: `retries + 1` attempts. -/
def httpRequest (method url : String) (opts : HttpOptions) : M HttpResp :=
  requestGo method url opts.retryDelay (opts.retries + 1)

/-- JS `x || d` for an optional number (`0` and `NaN` are falsy). -/
def jsOrNat (o : Option Nat) (d : Nat) : Nat :=
  match o with
  | some n => if n ≠ 0 then n else d
  | none => d

/-- JS `x || d` for an optional string (`""` is falsy). -/
def jsOrStr (o : Option String) (d : Option String) : Option String :=
  match o with
  | some s => if s ≠ "" then some s else d
  | none => d

/-! ## URL building
`buildUrl` of the auth and execution services (identical). -/

def stripTrailingSlash (s : String) : String :=
  match s.toList.getLast? with
  | some c => if c = '/' then String.mk s.toList.dropLast else s
  | none => s

def stripLeadingSlash (s : String) : String :=
  match s.toList with
  | '/' :: rest => String.mk rest
  | _ => s

/-- `application/x-www-form-urlencoded` character encoding of `URLSearchParams`. -/
def formEncodeChar (c : Char) : String :=
  if (decide ('A' ≤ c) && decide (c ≤ 'Z')) || (decide ('a' ≤ c) && decide (c ≤ 'z'))
      || (decide ('0' ≤ c) && decide (c ≤ '9'))
      || decide (c = '*') || decide (c = '-') || decide (c = '.') || decide (c = '_') then
    String.singleton c
  else if c = ' ' then "+"
  else
    String.join (((String.singleton c).toUTF8.toList).map (fun b =>
      let n := b.toNat
      let hex := fun (m : Nat) => if m < 10 then Char.ofNat (48 + m) else Char.ofNat (55 + m)
      String.mk ['%', hex (n / 16), hex (n % 16)]))

def formEncode (s : String) : String :=
  String.join (s.toList.map formEncodeChar)

def urlSearchParamsToString (ps : List (String × String)) : String :=
  String.intercalate "&" (ps.map (fun p => formEncode p.1 ++ "=" ++ formEncode p.2))

/-- `buildUrl(baseUrl, path, params)`: join with single slash, append the
query string built from the non-null params (values `String(…)`-coerced). -/
def buildUrl (baseUrl path : String) (params : List (String × JVal)) : String :=
  let url := stripTrailingSlash baseUrl ++ "/" ++ stripLeadingSlash path
  let qp := params.filterMap (fun p =>
    match p.2 with
    | JVal.null => none
    | v => some (p.1, jsToString v))
  let qs := urlSearchParamsToString qp
  if qs = "" then url else url ++ "?" ++ qs

/-! ## Environment loading and the `$SESSION_` pass -/

/-- `EnvironmentService.load(originName)`: ensure the per-origin cache has an
(empty) entry; variables themselves live in `process.env` (`st.env`). -/
def envLoad (originName : String) : M Unit := do
  let st ← get
  match mapGet st.envCache originName with
  | some _ => pure ()
  | none => set { st with envCache := mapSet st.envCache originName [] }

/-- The `/\$SESSION_([A-Z_][A-Z0-9_]*)/g` pass of
`ExecutionService.substituteVariables`: the captured name is looked up
WITHOUT the prefix via `sessionService.get(sessionKey)` (which lazily evicts,
so the session map threads through), and a falsy value keeps the match. -/
def sessionScan (now : Nat) (fuel : Nat) (sessions : List (String × SessionEntry))
    (s : List Char) : List Char × List (String × SessionEntry) :=
  match fuel with
  | 0 => (s, sessions)
  | fuel' + 1 =>
    match s with
    | [] => ([], sessions)
    | '$' :: 'S' :: 'E' :: 'S' :: 'S' :: 'I' :: 'O' :: 'N' :: '_' :: rest =>
      (match rest with
      | [] => (['$', 'S', 'E', 'S', 'S', 'I', 'O', 'N', '_'], sessions)
      | c :: cs =>
        if identStartChar c then
          let name := c :: cs.takeWhile identChar
          let pr := sessionGet sessions (String.mk name) now
          let pr2 := sessionScan now fuel' pr.2 (cs.dropWhile identChar)
          match pr.1 with
          | some jv =>
            if truthy jv then ((jsToString jv).toList ++ pr2.1, pr2.2)
            else ('$' :: 'S' :: 'E' :: 'S' :: 'S' :: 'I' :: 'O' :: 'N' :: '_' :: (name ++ pr2.1), pr2.2)
          | none => ('$' :: 'S' :: 'E' :: 'S' :: 'S' :: 'I' :: 'O' :: 'N' :: '_' :: (name ++ pr2.1), pr2.2)
        else
          let pr2 := sessionScan now fuel' sessions (c :: cs)
          ('$' :: 'S' :: 'E' :: 'S' :: 'S' :: 'I' :: 'O' :: 'N' :: '_' :: pr2.1, pr2.2))
    | c :: cs =>
      let pr := sessionScan now fuel' sessions cs
      (c :: pr.1, pr.2)

/-- `ExecutionService.substituteVariables` on a string: the environment
service substitution (no job results) followed by the `$SESSION_` pass. -/
def substituteVariablesStr (dec : String → Option String) (originName : String)
    (s : String) : M String := do
  let st ← get
  let s1 := substituteModel dec (fun k => mapGet st.env k) st.envCache (some originName) [] s
  let pr := sessionScan st.now (s1.length + 1) st.sessions s1.toList
  set { st with sessions := pr.2 }
  pure (String.mk pr.1)

/-- `ExecutionService.substituteVariables` on a value (recursion into arrays
and objects); the fuel bounds the depth. -/
def substituteVariablesJ (dec : String → Option String) (originName : String) :
    Nat → JVal → M JVal
  | 0, v => pure v
  | fuel' + 1, v =>
    match v with
    | .str s => do pure (JVal.str (← substituteVariablesStr dec originName s))
    | .arr xs => do pure (JVal.arr (← xs.mapM (substituteVariablesJ dec originName fuel')))
    | .obj fs => do
      pure (JVal.obj (← fs.mapM (fun p => do
        pure (p.1, ← substituteVariablesJ dec originName fuel' p.2))))
    | other => pure other

/-! ## Auth service
Source: `AuthService` (auth service module). -/

/-- `x ? x : d` over an optional JS string where `""` is falsy (`x || d`). -/
def jsOrStrD (o : Option String) (d : String) : String :=
  match o with
  | some s => if s ≠ "" then s else d
  | none => d

/-- Truthiness of a possibly-null value. -/
def truthyOpt (o : Option JVal) : Bool :=
  match o with
  | some v => truthy v
  | none => false

/-- `jobConfig.session_name` used as a truthiness guard. -/
def sessionNameTruthy (jobCfg : JobCfg) : Bool :=
  match jobCfg.session_name with
  | some s => s ≠ ""
  | none => false

/-- The navigation loop shared by `extractToken` / `extractExpiration`:
`current && typeof current === 'object' && part in current` then
`current = current[part]`, else give up. -/
def navStrict (v : JVal) (parts : List String) : Option JVal :=
  match parts with
  | [] => some v
  | p :: rest =>
    match v with
    | .null => none
    | _ =>
      match jIndex v p with
      | some v1 => navStrict v1 rest
      | none => none

/-- `parseInt(String(v))`, restricted to an unsigned leading numeral
(`none` = `NaN`). -/
def parseIntStr (s : String) : Option Nat :=
  let ds := s.toList.takeWhile isDigitChar
  if ds.isEmpty then none else some (digitsToNat ds)

/-- `AuthService.extractToken(responseData, jobConfig)`: the whole-path
property if truthy, else dot-path navigation returning only strings.  (A
`null` responseData, for which the JS would raise a TypeError in the simple
branch, is out of the model.) -/
def extractToken (responseData : JVal) (jobConfig : JobCfg) : Option JVal :=
  match jobConfig.token_identifier with
  | none => none
  | some tokenPath =>
    if tokenPath = "" then none
    else
      let simple : Option JVal :=
        match responseData with
        | .obj _ | .arr _ =>
          match jIndex responseData tokenPath with
          | some v => if truthy v then some v else none
          | none => none
        | _ => none
      match simple with
      | some v => some v
      | none =>
        match navStrict responseData (splitOnDot tokenPath) with
        | some (.str s) => some (.str s)
        | _ => none

/-- `AuthService.extractExpiration(responseData, jobConfig)`: `none` is JS
`NaN` (reachable from `parseInt` in the simple branch only).  `.int` is the
only numeric shape of the model (floats carry no value here). -/
def extractExpiration (responseData : JVal) (jobConfig : JobCfg) : Option Nat :=
  let defaultTime := jobConfig.token_expiration_time
  match jobConfig.token_expiration_identifier with
  | none => some (jsOrNat defaultTime 3600)
  | some expirationPath =>
    if expirationPath = "" then some (jsOrNat defaultTime 3600)
    else
      let simple : Option JVal :=
        match responseData with
        | .obj _ | .arr _ =>
          match jIndex responseData expirationPath with
          | some v => if truthy v then some v else none
          | none => none
        | _ => none
      match simple with
      | some v =>
        (match v with
         | .int n => some n.toNat
         | other => parseIntStr (jsToString other))
      | none =>
        match navStrict responseData (splitOnDot expirationPath) with
        | none => some (jsOrNat defaultTime 3600)
        | some cur =>
          match cur with
          | .int n => some n.toNat
          | other => some (jsOrNat (parseIntStr (jsToString other)) (jsOrNat defaultTime 3600))

/-- The TypeError raised when `authenticate` is reached with a `null`
job configuration (`findAuthJob` found no auth job) and dereferences it. -/
def nullJobCfgError : String :=
  let q := (Char.ofNat 39).toString
  "Cannot read properties of null (reading " ++ q ++ "path" ++ q ++ ")"

/-- `AuthService.authenticate(originConfig, jobConfig, mode)`.  A `none`
job configuration models the `null` of `findAuthJob`: the JS dereferences it
right after `environmentService.load`, raising a TypeError. -/
def authenticate (dec : String → Option String) (origin : OriginCfg)
    (jobConfig : Option JobCfg) : M Bool := do
  envLoad origin.name
  match jobConfig with
  | none => throw nullJobCfgError
  | some jobCfg => do
    let st ← get
    let url := buildUrl origin.base_url jobCfg.path jobCfg.params
    let processedPayload := jobCfg.payload.map
      (substituteDeepJ dec (fun k => mapGet st.env k) st.envCache (some origin.name) [] jFuel)
    let processedHeaders := jobCfg.headers.map (fun p =>
      (p.1, substituteModel dec (fun k => mapGet st.env k) st.envCache (some origin.name) [] p.2))
    let response ← httpRequest jobCfg.method url
      { headers := processedHeaders, body := processedPayload,
        timeout := jsOrNat jobCfg.timeout 30000 }
    let token := extractToken response.data jobCfg
    match token with
    | none => throw "Token não encontrado na resposta de autenticação"
    | some t =>
      if truthy t then do
        let expiresIn := extractExpiration response.data jobCfg
        let sessionName := jsOrStrD jobCfg.session_name
          ("SESSION_" ++ strToUpper origin.name ++ "_TOKEN")
        modify fun st2 =>
          { st2 with
            sessions := sessionSet st2.sessions sessionName t expiresIn st2.now,
            activeSessions := mapSet st2.activeSessions origin.name sessionName }
        pure true
      else throw "Token não encontrado na resposta de autenticação"

/-- `AuthService.isAuthenticated(originName)` (pure on explicit state;
`sessionService.has` may evict, so the session map threads through). -/
def isAuthenticatedPure (activeSessions : List (String × String))
    (sessions : List (String × SessionEntry)) (originName : String) (now : Nat) :
    Bool × List (String × SessionEntry) :=
  match mapGet activeSessions originName with
  | some sn => if sn ≠ "" then sessionHas sessions sn now else (false, sessions)
  | none => (false, sessions)

/-- `AuthService.getToken(originName)`. -/
def getTokenPure (activeSessions : List (String × String))
    (sessions : List (String × SessionEntry)) (originName : String) (now : Nat) :
    Option JVal × List (String × SessionEntry) :=
  match mapGet activeSessions originName with
  | some sn => if sn ≠ "" then sessionGet sessions sn now else (none, sessions)
  | none => (none, sessions)

/-- `AuthService.refreshAuthentication(originConfig, jobConfig, mode)`:
a no-op returning `true` when `isAuthenticated`, else `authenticate`. -/
def refreshAuthentication (dec : String → Option String) (origin : OriginCfg)
    (authJob : Option JobCfg) : M Bool := do
  let st ← get
  let pr := isAuthenticatedPure st.activeSessions st.sessions origin.name st.now
  set { st with sessions := pr.2 }
  if pr.1 then pure true
  else authenticate dec origin authJob

/-! ## Execution service
Source: `ExecutionService` (execution service module). -/

/-- `ExecutionService.findAuthJob(originConfig)`: the FIRST job whose type is
`auth`, or null. -/
def findAuthJob (origin : OriginCfg) : Option JobCfg :=
  origin.job.find? (fun j => j.type = "auth")

/-- `new Date().toISOString()`, modelled from the state clock. -/
def isoTimestamp (now : Nat) : String := "iso(" ++ toString now ++ ")"

structure ExecResponse where
  url : String
  method : String
  status : Nat
  statusText : String
  headers : List (String × String)
  data : JVal
  timestamp : String
deriving Repr

/-- The `makeRequest` closure of `executeRequest`: build the URL, inject the
`Authorization` header when a session token is present, substitute variables,
apply the retry policy defaults, and perform the HTTP request.  Returns the
response with the final URL. -/
def makeRequest (dec : String → Option String) (origin : OriginCfg)
    (jobCfg : JobCfg) : M (HttpResp × String) := do
  let _url := buildUrl origin.base_url jobCfg.path jobCfg.params
  let headers ←
    if sessionNameTruthy jobCfg then do
      let st ← get
      let pr := getTokenPure st.activeSessions st.sessions origin.name st.now
      set { st with sessions := pr.2 }
      match pr.1 with
      | some t =>
        if truthy t then
          let authType :=
            match jobCfg.auth with
            | some a => jsOrStrD a.type "Bearer"
            | none => "Bearer"
          pure (mapSet jobCfg.headers "Authorization" (authType ++ " " ++ jsToString t))
        else pure jobCfg.headers
      | none => pure jobCfg.headers
    else pure jobCfg.headers
  let processedHeaders ← headers.mapM (fun p => do
    pure (p.1, ← substituteVariablesStr dec origin.name p.2))
  let processedPayload ←
    match jobCfg.payload with
    | none => pure none
    | some pl => do pure (some (← substituteVariablesJ dec origin.name jFuel pl))
  let processedParams ← jobCfg.params.mapM (fun p => do
    pure (p.1, ← substituteVariablesJ dec origin.name jFuel p.2))
  let finalUrl := buildUrl origin.base_url jobCfg.path processedParams
  let retryPolicy := match jobCfg.retry_policy with | some rp => rp | none => {}
  let body :=
    match processedPayload with
    | some pl => if truthy pl && jobCfg.method ≠ "GET" then some pl else none
    | none => none
  let response ← httpRequest jobCfg.method finalUrl
    { headers := processedHeaders,
      timeout := jsOrNat jobCfg.timeout 30000,
      retries := jsOrNat retryPolicy.max_attempts 3,
      retryDelay := jsOrNat retryPolicy.delay 1000,
      body := body }
  pure (response, finalUrl)

/-- `ExecutionService.processResponse(response, format)`: for `json`,
object-typed data (objects, arrays, null) is kept, anything else goes through
`JSON.parse` of its string coercion; other formats return the data as-is.
(`format` is `json` only when `response_format` is absent — JS default
parameters fire on `undefined` alone.) -/
def processResponse (resp : HttpResp) (format : Option String)
    (jparse : String → Except String JVal) : Except String JVal :=
  let fmt := match format with | some f => f | none => "json"
  if fmt = "json" then
    match resp.data with
    | .obj fs => .ok (.obj fs)
    | .arr xs => .ok (.arr xs)
    | .null => .ok .null
    | d => jparse (jsToString d)
  else .ok resp.data

/-- The catch-side auth retry of `executeRequest`: refresh authentication,
redo the request, process the response; any failure rethrows the ORIGINAL
error. -/
def execCatchRetry (jparse : String → Except String JVal)
    (dec : String → Option String) (origin : OriginCfg) (jobCfg : JobCfg)
    (error : String) : M ExecResponse :=
  tryCatch
    (do
      let _ ← refreshAuthentication dec origin (findAuthJob origin)
      let rr ← makeRequest dec origin jobCfg
      match processResponse rr.1 jobCfg.response_format jparse with
      | Except.ok pr => do
        let st ← get
        pure { url := if rr.1.url ≠ "" then rr.1.url else rr.2,
               method := jobCfg.method, status := rr.1.status,
               statusText := rr.1.statusText, headers := rr.1.headers,
               data := pr, timestamp := isoTimestamp st.now }
      | Except.error e => throw e)
    (fun _ => throw error)

/-- `ExecutionService.executeRequest(originConfig, jobConfig, mode)`.
`authRetryAttempted` starts false; it is set (only) by the status-401
branch, so the catch branch retries only when that branch was not taken. -/
def executeRequest (jparse : String → Except String JVal)
    (dec : String → Option String) (origin : OriginCfg) (jobCfg : JobCfg) :
    M ExecResponse := do
  let r1 ← tryCatch
    (do let rr ← makeRequest dec origin jobCfg; pure (Except.ok (ε := String) rr))
    (fun e => pure (Except.error e))
  match r1 with
  | Except.error error =>
    if jsIncludes error "HTTP 401" && sessionNameTruthy jobCfg then
      execCatchRetry jparse dec origin jobCfg error
    else throw error
  | Except.ok rr => do
    let flagTaken := rr.1.status = 401 && sessionNameTruthy jobCfg
    let rr2 ←
      if flagTaken then
        tryCatch
          (do
            let _ ← refreshAuthentication dec origin (findAuthJob origin)
            makeRequest dec origin jobCfg)
          (fun _ => pure rr)
      else pure rr
    match processResponse rr2.1 jobCfg.response_format jparse with
    | Except.ok pr => do
      let st ← get
      pure { url := rr2.2, method := jobCfg.method, status := rr2.1.status,
             statusText := rr2.1.statusText, headers := rr2.1.headers,
             data := pr, timestamp := isoTimestamp st.now }
    | Except.error perr =>
      if !flagTaken && jsIncludes perr "HTTP 401" && sessionNameTruthy jobCfg then
        execCatchRetry jparse dec origin jobCfg perr
      else throw perr

structure ExecResult where
  success : Bool
  type : Option String := none
  jobId : String
  authenticated : Option Bool := none
  response : Option ExecResponse := none
  error : Option String := none
deriving Repr

/-- `ExecutionService.executeJob(originConfig, jobConfig, mode, silent)`:
guard against concurrent runs of the same `origin_jobId`, dispatch on the
job type, catch every error into a `success: false` result, and always
remove the id from `runningJobs` (the JS `finally`). -/
def executeJob (jparse : String → Except String JVal)
    (dec : String → Option String) (origin : OriginCfg) (jobCfg : JobCfg) :
    M ExecResult := do
  let jobId := origin.name ++ "_" ++ jobCfg.id
  let st ← get
  if st.runningJobs.contains jobId then
    throw ("Job " ++ jobId ++ " já está em execução")
  else do
    set { st with runningJobs := st.runningJobs ++ [jobId] }
    let body : M ExecResult := do
      envLoad origin.name
      if jobCfg.type = "auth" then do
        let result ← authenticate dec origin (some jobCfg)
        pure { success := true, type := some "auth", jobId := jobId,
               authenticated := some result }
      else if jobCfg.type = "request" then do
        if sessionNameTruthy jobCfg then do
          let _ ← refreshAuthentication dec origin (findAuthJob origin)
          pure ()
        else pure ()
        let result ← executeRequest jparse dec origin jobCfg
        pure { success := true, type := some "request", jobId := jobId,
               response := some result }
      else throw ("Tipo de job não suportado: " ++ jobCfg.type)
    let r ← tryCatch body (fun error =>
      pure { success := false, jobId := jobId, error := some error })
    modify fun st2 =>
      { st2 with runningJobs := st2.runningJobs.filter (fun x => !(x = jobId)) }
    pure r

/-! ## Transport service and SQL Server driver
Source: `TransportService` (transport service) and `SQLServerDriver`
(sqlserver driver).  The database server is the `dbOutcomes` oracle. -/

/-- A single-quote character, for building SQL strings. -/
def sq : String := (Char.ofNat 39).toString

/-- JS `a || b` over two optional strings. -/
def jsOrStrOpt (a b : Option String) : Option String :=
  match a with
  | some s => if s ≠ "" then some s else b
  | none => b

/-- `TransportService.connect(driverName, connectionString)`: only the
`sqlserver` driver exists; the driver-level connect is a database call. -/
def transportConnect (driverName : Option String) (connectionString : String) : M Unit := do
  let ok := match driverName with | some d => d = "sqlserver" | none => false
  if !ok then
    throw ("Driver " ++ sq ++ (match driverName with | some d => d | none => "undefined") ++ sq
      ++ " não suportado. Drivers disponíveis: sqlserver")
  else do
    let o ← dbCall (DbOp.connect "sqlserver" connectionString)
    match o with
    | DbOut.ok _ => modify fun st => { st with transportConnected := true }
    | DbOut.err m => throw m

/-- `TransportService.disconnect()`: closes the pool (recorded on the trace,
no oracle outcome consumed) when connected. -/
def transportDisconnect : M Unit := do
  let st ← get
  if st.transportConnected then
    set { st with dbTrace := st.dbTrace ++ [DbOp.disconnect], transportConnected := false }
  else pure ()

/-- The exact `CREATE TABLE` template literal of `SQLServerDriver.createTable`,
whitespace included: when the data brings its own id column, `idColumn` is the
EMPTY string — no primary-key clause at all. -/
def createTableSql (tableName : String) (columns : List (String × String))
    (hasId : Bool) : String :=
  let columnDefs := String.intercalate ", " (columns.map (fun p => "[" ++ p.1 ++ "] " ++ p.2))
  let idColumn := if hasId then "" else "[id] INT IDENTITY(1,1) PRIMARY KEY,"
  "IF NOT EXISTS (SELECT * FROM sysobjects WHERE name=" ++ sq ++ tableName ++ sq
    ++ " AND xtype=" ++ sq ++ "U" ++ sq ++ ")\n                 CREATE TABLE ["
    ++ tableName ++ "] (\n                   " ++ idColumn ++ "\n                   "
    ++ columnDefs ++ "\n                 )"

/-- `SQLServerDriver.createTable`. -/
def driverCreateTable (tableName : String) (columns : List (String × String))
    (hasId : Bool) : M Unit := do
  let o ← dbCall (DbOp.query (createTableSql tableName columns hasId))
  match o with
  | DbOut.ok _ => pure ()
  | DbOut.err m => throw m

/-- `SQLServerDriver.clearTable`: `TRUNCATE`, falling back to `DELETE`. -/
def driverClearTable (tableName : String) : M Unit := do
  let o ← dbCall (DbOp.query ("TRUNCATE TABLE [" ++ tableName ++ "]"))
  match o with
  | DbOut.ok _ => pure ()
  | DbOut.err _ => do
    let o2 ← dbCall (DbOp.query ("DELETE FROM [" ++ tableName ++ "]"))
    match o2 with
    | DbOut.ok _ => pure ()
    | DbOut.err m => throw m

/-- The TypeError of `result.recordset[0].id` when the insert returned no
rows. -/
def undefinedIdError : String :=
  "Cannot read properties of undefined (reading " ++ sq ++ "id" ++ sq ++ ")"

/-- `SQLServerDriver.insert(tableName, data, hasIdColumn)`: drop the `id`
key when the table uses an IDENTITY id, emit `INSERT … OUTPUT INSERTED.id`,
and read the id off the first returned row. -/
def driverInsert (tableName : String) (data : List (String × JVal))
    (hasId : Bool) : M JVal := do
  let actual :=
    if !hasId && (data.map Prod.fst).contains "id" then
      data.filter (fun p => !(p.1 = "id"))
    else data
  let columnList := String.intercalate ", " (actual.map (fun p => "[" ++ p.1 ++ "]"))
  let paramList := String.intercalate ", "
    ((List.range actual.length).map (fun i => "@p" ++ toString (i + 1)))
  let sqlTxt := "INSERT INTO [" ++ tableName ++ "] (" ++ columnList
    ++ ") OUTPUT INSERTED.id VALUES (" ++ paramList ++ ")"
  let o ← dbCall (DbOp.insert sqlTxt (actual.map Prod.snd))
  match o with
  | DbOut.err m => throw m
  | DbOut.ok rows =>
    match rows with
    | [] => throw undefinedIdError
    | r :: _ =>
      match r with
      | .obj fs => (match jGet fs "id" with | some v => pure v | none => pure JVal.null)
      | _ => pure JVal.null

/-- `TransportService.extractValue(obj, path)` (`none` = JS `undefined`). -/
def extractValue (obj : JVal) (path : String) : Option JVal :=
  if !(jsIncludes path ".") then
    match obj with
    | .obj _ | .arr _ => jIndex obj path
    | _ => none
  else navStrict obj (splitOnDot path)

/-- `TransportService.hasIdColumn(sampleData)`: any of the reserved id-like
keys present on an object. -/
def hasIdColumn (sampleData : JVal) : Bool :=
  match sampleData with
  | .obj fs =>
    ["id", "ID", "codigo", "Codigo", "codigoEmpresa", "CodigoEmpresa"].any
      (fun c => (jGet fs c).isSome)
  | _ => false

/-- `JSON.stringify` over the value model (string escaping not modelled);
fuel bounds the depth. -/
def jsonStringifyF : Nat → JVal → String
  | 0, _ => ""
  | fuel + 1, v =>
    match v with
    | .null => "null"
    | .bool b => if b then "true" else "false"
    | .int n => toString n
    | .float => "0.5"
    | .str s => "\"" ++ s ++ "\""
    | .arr xs => "[" ++ String.intercalate "," (xs.map (jsonStringifyF fuel)) ++ "]"
    | .obj fs =>
      lbrace.toString
        ++ String.intercalate ","
          (fs.map (fun p => "\"" ++ p.1 ++ "\":" ++ jsonStringifyF fuel p.2))
        ++ rbrace.toString

def jsonStringify (v : JVal) : String := jsonStringifyF jFuel v

/-- The metadata object built by the callers of `processDatabaseOutput`. -/
structure OutputMetadata where
  originName : Option String := none
  timestamp : Option String := none
  mode : Option String := none
  jobId : Option String := none
  arrayIndex : Option Nat := none
deriving Repr

/-- The serialization applied to each value before insertion: arrays and
objects become their `JSON.stringify`. -/
def serializeValue (v : JVal) : JVal :=
  match v with
  | .arr _ | .obj _ => .str (jsonStringify v)
  | v2 => v2

/-- `TransportService.prepareDataForInsert(responseData, columnMapping,
metadata)`: flat copy (nested values JSON-stringified, `created_at` /
`updated_at` skipped) or the custom mapping, then the metadata columns when
absent or falsy.  An extracted `undefined` is modelled as `null` (both land
as SQL NULL). -/
def prepareDataForInsert (responseData : JVal) (columnMapping : List (String × String))
    (metadata : OutputMetadata) : List (String × JVal) :=
  let ser : JVal → JVal := serializeValue
  let data :=
    if columnMapping.isEmpty then
      match responseData with
      | .obj fs =>
        fs.foldl (fun acc p =>
          if p.1 = "created_at" || p.1 = "updated_at" then acc
          else mapSet acc p.1 (ser p.2)) []
      | .arr xs =>
        (xs.enum.map (fun p => (toString p.1, p.2))).foldl (fun acc p =>
          if p.1 = "created_at" || p.1 = "updated_at" then acc
          else mapSet acc p.1 (ser p.2)) []
      | other => [("response", other)]
    else
      columnMapping.foldl (fun acc p =>
        match extractValue responseData p.1 with
        | some v => mapSet acc p.2 (ser v)
        | none => mapSet acc p.2 JVal.null) []
  let d1 := match metadata.jobId with
    | some j => if j ≠ "" && !truthyOpt (jGet data "job_id")
        then mapSet data "job_id" (.str j) else data
    | none => data
  let d2 := match metadata.timestamp with
    | some t => if t ≠ "" && !truthyOpt (jGet d1 "timestamp")
        then mapSet d1 "timestamp" (.str t) else d1
    | none => d1
  match metadata.originName with
  | some o => if o ≠ "" && !truthyOpt (jGet d2 "origin")
      then mapSet d2 "origin" (.str o) else d2
  | none => d2

/-- The `/^\d{4}-\d{2}-\d{2}T\d{2}:\d{2}:\d{2}/` test of `inferColumnType`. -/
def isDateTimePre (cs : List Char) : Bool :=
  match cs with
  | y1 :: y2 :: y3 :: y4 :: '-' :: m1 :: m2 :: '-' :: d1 :: d2 :: 'T'
      :: h1 :: h2 :: ':' :: mi1 :: mi2 :: ':' :: s1 :: s2 :: _ =>
    [y1, y2, y3, y4, m1, m2, d1, d2, h1, h2, mi1, mi2, s1, s2].all isDigitChar
  | _ => false

/-- `TransportService.inferColumnType(value)` (`.int` is the only numeric
shape of the model; `float` stands for a non-integral number). -/
def inferColumnType (value : JVal) : String :=
  match value with
  | .null => "TEXT"
  | .int n => if n > 2147483647 || n < -2147483648 then "BIGINT" else "INTEGER"
  | .float => "REAL"
  | .bool _ => "INTEGER"
  | .str s => if isDateTimePre s.toList then "DATETIME" else "TEXT"
  | .obj _ => "NVARCHAR(MAX)"
  | .arr _ => "NVARCHAR(MAX)"

/-- `TransportService.inferColumnsFromData(sampleData)`: per-key inferred
types, plus a `created_at DATETIME` column when the data has none. -/
def inferColumnsFromData (sampleData : List (String × JVal)) : List (String × String) :=
  let columns := sampleData.foldl (fun acc p =>
    if p.1 = "created_at" || p.1 = "updated_at" then acc
    else mapSet acc p.1 (inferColumnType p.2)) []
  if sampleData.any (fun p => p.1 = "created_at") then columns
  else mapSet columns "created_at" "DATETIME"

/-- Drop the first occurrence of `pat` from `s` (JS `String.replace` with a
string pattern). -/
def dropFirstOcc (pat : List Char) (s : List Char) : List Char :=
  if listPrefixOf pat s then s.drop pat.length
  else
    match s with
    | [] => []
    | c :: cs => c :: dropFirstOcc pat cs

/-- The `INFORMATION_SCHEMA` query of `getTableColumns` (exact template
literal, `dbo.` stripped from the first occurrence in the name). -/
def getTableColumnsSql (tableName : String) : String :=
  let stripped := String.mk (dropFirstOcc "dbo.".toList tableName.toList)
  "\n        SELECT COLUMN_NAME as name, DATA_TYPE as type\n        FROM INFORMATION_SCHEMA.COLUMNS\n        WHERE TABLE_NAME = "
    ++ sq ++ stripped ++ sq ++ "\n        ORDER BY ORDINAL_POSITION\n      "

/-- `TransportService.getTableColumns(tableName)`: a failing query (table
absent) yields the empty list. -/
def getTableColumns (tableName : String) : M (List (String × String)) := do
  let o ← dbCall (DbOp.query (getTableColumnsSql tableName))
  match o with
  | DbOut.ok rows =>
    pure (rows.map (fun r =>
      match r with
      | .obj fs =>
        ((match jGet fs "name" with | some (.str n) => n | _ => ""),
         (match jGet fs "type" with | some (.str t) => t | _ => ""))
      | _ => ("", "")))
  | DbOut.err _ => pure []

/-- `TransportService.ensureTable(tableName, sampleData, hasIdColumn)`:
create the table from the inferred columns only when it does not exist. -/
def ensureTable (tableName : String) (sampleData : List (String × JVal))
    (hasId : Bool) : M Unit := do
  let existing ← getTableColumns tableName
  if existing.length > 0 then pure ()
  else driverCreateTable tableName (inferColumnsFromData sampleData) hasId

structure OutputResult where
  success : Bool
  table : Option String := none
  insertId : Option String := none
  recordsInserted : Option Nat := none
  message : Option String := none
  error : Option String := none
deriving Repr

/-- The per-item insertion loop of `processDatabaseOutput`: table setup on
the first iteration (optional drop, `ensureTable`, optional clear), then an
insert whose failure is swallowed, the success count accumulating. -/
def insertLoop (tableStr : String) (clearBefore : Bool)
    (colMap : List (String × String)) (metadata : OutputMetadata) (hasId : Bool) :
    List JVal → Bool → Nat → M Nat
  | [], _, acc => pure acc
  | item :: restItems, isFirst, acc => do
    let dataToInsert := prepareDataForInsert item colMap metadata
    if isFirst then do
      if clearBefore then do
        let o ← dbCall (DbOp.query ("DROP TABLE IF EXISTS [" ++ tableStr ++ "]"))
        match o with
        | DbOut.ok _ => pure ()
        | DbOut.err m => throw m
      else pure ()
      ensureTable tableStr dataToInsert hasId
      if clearBefore then driverClearTable tableStr else pure ()
    else pure ()
    let r ← tryCatch
      (do let _ ← driverInsert tableStr dataToInsert hasId; pure 1)
      (fun _ => pure 0)
    insertLoop tableStr clearBefore colMap metadata hasId restItems false (acc + r)

/-- The guarded body of `processDatabaseOutput` (inside its `try`). -/
def processDatabaseBody (responseData : JVal) (outputConfig : OutputCfg)
    (metadata : OutputMetadata) : M OutputResult := do
  let tableStr := match outputConfig.table with | some t => t | none => "undefined"
  let data0 : Option JVal :=
    match outputConfig.data_path with
    | some dp => if dp ≠ "" then extractValue responseData dp else some responseData
    | none => some responseData
  let d1 : JVal := match data0 with | some v => v | none => JVal.null
  let dataToProcess : JVal :=
    match d1 with
    | .obj fs =>
      if fs.length > 0 && fs.all (fun p => !p.1.toList.isEmpty && p.1.toList.all isDigitChar)
      then JVal.arr (fs.map Prod.snd)
      else .obj fs
    | v => v
  let hasId : Bool :=
    match dataToProcess with
    | .arr (x :: _) => hasIdColumn x
    | .arr [] => false
    | .obj fs => hasIdColumn (.obj fs)
    | _ => false
  match dataToProcess with
  | .arr xs =>
    (match xs with
    | [] =>
      pure { success := true, table := outputConfig.table,
             recordsInserted := some 0, message := some "Array vazio" }
    | _ => do
      let n ← insertLoop tableStr outputConfig.clear_before_insert
        outputConfig.columns metadata hasId xs true 0
      pure { success := true, table := outputConfig.table,
             insertId := if n > 0 then some "multiple" else none,
             recordsInserted := some n })
  | single => do
    let dataToInsert := prepareDataForInsert single outputConfig.columns metadata
    ensureTable tableStr dataToInsert hasId
    let _ ← driverInsert tableStr dataToInsert hasId
    pure { success := true, table := outputConfig.table,
           insertId := some "multiple", recordsInserted := some 1 }

/-- `TransportService.processDatabaseOutput(responseData, outputConfig,
metadata, originConfig)`: connection guards throw; everything inside the
`try` is caught into a `success: false` result. -/
def processDatabaseOutput (responseData : JVal) (outputConfig : OutputCfg)
    (metadata : OutputMetadata) (originCfg : OriginCfg) : M OutputResult := do
  let st0 ← get
  if !st0.transportConnected then
    throw "Transporte não conectado ao banco de dados"
  else
    let fcs := jsOrStrOpt outputConfig.connection_string originCfg.connection_string
    if !(match fcs with | some s => s ≠ "" | none => false) then
      throw "Connection string não encontrada no job nem na origem"
    else
      tryCatch (processDatabaseBody responseData outputConfig metadata)
        (fun error => pure { success := false, error := some error })

/-! ## Orchestrator
Source: the CLI entry point (src/cli): `processJobOutput` and the main
execution loop. -/

/-- `environmentService.substituteDeep(jobConfig, originName, jobResults)`
applied to a whole job configuration: every string field goes through
`substitute`, nested values recurse, numbers and booleans pass through. -/
def substituteDeepJobCfg (dec procEnv : String → Option String)
    (envCache : List (String × List (String × String))) (originName : Option String)
    (jobResults : List (String × JVal)) (cfg : JobCfg) : JobCfg :=
  let sub := substituteModel dec procEnv envCache originName jobResults
  let subJ := substituteDeepJ dec procEnv envCache originName jobResults jFuel
  { id := sub cfg.id
  , type := sub cfg.type
  , method := sub cfg.method
  , path := sub cfg.path
  , headers := cfg.headers.map (fun p => (p.1, sub p.2))
  , params := cfg.params.map (fun p => (p.1, subJ p.2))
  , payload := cfg.payload.map subJ
  , timeout := cfg.timeout
  , retry_policy := cfg.retry_policy
  , dependencies := cfg.dependencies.map sub
  , session_name := cfg.session_name.map sub
  , auth := cfg.auth.map (fun a => { type := a.type.map sub })
  , response_format := cfg.response_format.map sub
  , token_identifier := cfg.token_identifier.map sub
  , token_expiration_identifier := cfg.token_expiration_identifier.map sub
  , token_expiration_time := cfg.token_expiration_time
  , output := cfg.output.map (fun o =>
      { enabled := o.enabled
      , type := o.type.map sub
      , driver := o.driver.map sub
      , table := o.table.map sub
      , columns := o.columns.map (fun p => (p.1, sub p.2))
      , data_path := o.data_path.map sub
      , clear_before_insert := o.clear_before_insert
      , connection_string := o.connection_string.map sub }) }

/-- The file-output service, outside the claims under verification: an
oracle consuming `fileOutcomes` (`none` = failure) and recording the call. -/
def fileProcessOutput (jobId : String) : M OutputResult := do
  let st ← get
  match st.fileOutcomes with
  | [] => do
    set { st with fileTrace := st.fileTrace ++ [jobId] }
    throw "file output unavailable"
  | o :: rest => do
    set { st with fileOutcomes := rest, fileTrace := st.fileTrace ++ [jobId] }
    match o with
    | some v => pure { success := true, message := some (jsToString v) }
    | none => throw "file output failed"

/-- The TypeError of `jobResult.response.data` when `response` is absent
(an auth job's result has none). -/
def undefinedDataError : String :=
  "Cannot read properties of undefined (reading " ++ sq ++ "data" ++ sq ++ ")"

/-- `processJobOutput(jobConfig, jobResult, originConfig, mode, silent)`:
`null` when output is not enabled; otherwise the database or file sink,
with EVERY error caught into a `success: false` result (a mere console
warning). -/
def processJobOutput (dec : String → Option String) (jobConfig : JobCfg)
    (jobResult : ExecResult) (originCfg : OriginCfg) (mode : String) :
    M (Option OutputResult) := do
  match jobConfig.output with
  | none => pure none
  | some oc =>
    if !oc.enabled then pure none
    else
      tryCatch
        (do
          let outputType := jsOrStrD oc.type "file"
          if outputType = "database" then do
            let connectionString := jsOrStrOpt oc.connection_string originCfg.connection_string
            match connectionString with
            | none => throw ("Connection string não encontrada para job " ++ jobConfig.id)
            | some cs =>
              if cs = "" then
                throw ("Connection string não encontrada para job " ++ jobConfig.id)
              else do
                let st ← get
                let csSub := substituteModel dec (fun k => mapGet st.env k)
                  st.envCache (some originCfg.name) [] cs
                transportConnect oc.driver csSub
                match jobResult.response with
                | none => throw undefinedDataError
                | some resp => do
                  let st2 ← get
                  let outputResult ← processDatabaseOutput resp.data oc
                    { originName := some originCfg.name,
                      timestamp := some (isoTimestamp st2.now),
                      mode := some mode, jobId := some jobConfig.id } originCfg
                  transportDisconnect
                  pure (some outputResult)
          else
            match jobResult.response with
            | none => throw undefinedDataError
            | some _ => do
              let r ← fileProcessOutput jobConfig.id
              pure (some r))
        (fun outputError => pure (some { success := false, error := some outputError }))

/-- One iteration of the orchestrator's `for (const jobId of executionOrder)`
loop: find the job, substitute templates over its whole configuration,
execute it, store the result in the session and the `jobResults` cache,
process its output; a failed execution throws `Falha no job …`. -/
def runJobStep (jparse : String → Except String JVal) (dec : String → Option String)
    (origin : OriginCfg) (allJobs : List JobCfg) (mode : String)
    (jobResults : List (String × JVal)) (jobId : String) :
    M (List (String × JVal)) := do
  match allJobs.find? (fun j => j.id = jobId) with
  | none => throw ("Cannot read properties of undefined (reading " ++ sq ++ "id" ++ sq ++ ")")
  | some jobConfig => do
    let st ← get
    let processedJobConfig := substituteDeepJobCfg dec (fun k => mapGet st.env k)
      st.envCache (some origin.name) jobResults jobConfig
    let result ← executeJob jparse dec origin processedJobConfig
    if result.success then do
      match result.response with
      | none => throw undefinedDataError
      | some resp => do
        let resultValue : JVal := JVal.obj
          [ ("data", resp.data)
          , ("headers", JVal.obj (resp.headers.map (fun p => (p.1, JVal.str p.2))))
          , ("status", JVal.int (Int.ofNat resp.status))
          , ("timestamp", JVal.str resp.timestamp) ]
        modify fun st2 =>
          { st2 with sessions :=
              sessionSet st2.sessions ("job_result_" ++ jobId) resultValue (some 3600000) st2.now }
        let jobResults2 := mapSet jobResults jobId resultValue
        let _ ← processJobOutput dec processedJobConfig result origin mode
        pure jobResults2
    else
      throw ("Falha no job " ++ jobId ++ ": "
        ++ (match result.error with | some e => e | none => "undefined"))

/-- The orchestrator loop over the resolved execution order. -/
def runJobsLoop (jparse : String → Except String JVal) (dec : String → Option String)
    (origin : OriginCfg) (allJobs : List JobCfg) (mode : String) :
    List String → List (String × JVal) → M (List (String × JVal))
  | [], jr => pure jr
  | jobId :: rest, jr => do
    let jr2 ← runJobStep jparse dec origin allJobs mode jr jobId
    runJobsLoop jparse dec origin allJobs mode rest jr2

/-- The orchestrator's single-job entry: resolve the execution order for the
target and run every job of it in order, threading the `jobResults` cache. -/
def runJobs (jparse : String → Except String JVal) (dec : String → Option String)
    (origin : OriginCfg) (mode : String) (jobName : String) :
    M (List (String × JVal)) := do
  let allJobs := origin.job
  match resolveExecutionOrder allJobs (some jobName) with
  | Except.error (RErr.thrown m) => throw m
  | Except.error RErr.fuel => throw "resolver out of fuel"
  | Except.ok executionOrder =>
    runJobsLoop jparse dec origin allJobs mode executionOrder []

/-! ## Evaluation lemmas for the effect monad

`runM` pushed through the monad operations, so that runs from a symbolic
state can be evaluated by rewriting. -/

theorem runM_pure {α : Type} (a : α) (st : SysState) :
    runM (pure a) st = (Except.ok a, st) := rfl

theorem runM_throw {α : Type} (e : String) (st : SysState) :
    runM (throw e : M α) st = (Except.error e, st) := rfl

theorem runM_get (st : SysState) : runM (get : M SysState) st = (Except.ok st, st) := rfl

theorem runM_set (st2 st : SysState) :
    runM (set st2 : M PUnit) st = (Except.ok PUnit.unit, st2) := rfl

theorem runM_modify (f : SysState → SysState) (st : SysState) :
    runM (modify f : M PUnit) st = (Except.ok PUnit.unit, f st) := rfl

theorem runM_bind {α β : Type} (x : M α) (f : α → M β) (st : SysState) :
    runM (x >>= f) st =
      (match runM x st with
       | (Except.ok a, st2) => runM (f a) st2
       | (Except.error e, st2) => (Except.error e, st2)) := by
  have key : runM (x >>= f) st =
      (match runM x st with
       | (r, st2) => StateT.run (ExceptT.bindCont f r) st2) := rfl
  rcases h : runM x st with ⟨r, st2⟩
  rcases r with e | a <;> rw [key, h] <;> rfl

/-- The continuation of `ExceptT.tryCatch`, named so rewriting can reach it. -/
def catchCont {α : Type} (h : String → M α) :
    Except String α → StateM SysState (Except String α)
  | Except.ok a => pure (Except.ok a)
  | Except.error e => ExceptT.run (h e)

theorem runM_tryCatch {α : Type} (x : M α) (h : String → M α) (st : SysState) :
    runM (tryCatch x h) st =
      (match runM x st with
       | (Except.error e, st2) => runM (h e) st2
       | (Except.ok a, st2) => (Except.ok a, st2)) := by
  have e1 : ExceptT.run (tryCatch x h) = ExceptT.run x >>= catchCont h := by
    have h0 : (tryCatch x h : M α) = ExceptT.tryCatch x h := rfl
    rw [h0]
    show ExceptT.run x >>= _ = ExceptT.run x >>= catchCont h
    apply bind_congr
    intro res
    cases res <;> rfl
  have e2 : runM (tryCatch x h) st =
      (ExceptT.run x).run st >>= fun p => (catchCont h p.1).run p.2 := by
    rw [runM, e1, StateT.run_bind]
  rcases hx : runM x st with ⟨r, st2⟩
  have hx2 : (ExceptT.run x).run st = (r, st2) := hx
  rw [e2, hx2]
  rcases r with e | a <;> rfl

/-- The continuation of `ExceptT.map`, named so rewriting can reach it. -/
def mapCont {α β : Type} (g : α → β) :
    Except String α → StateM SysState (Except String β)
  | Except.ok a => pure (Except.ok (g a))
  | Except.error e => pure (Except.error e)

theorem runM_map {α β : Type} (g : α → β) (x : M α) (st : SysState) :
    runM (g <$> x) st =
      (match runM x st with
       | (Except.ok a, st2) => (Except.ok (g a), st2)
       | (Except.error e, st2) => (Except.error e, st2)) := by
  have e1 : ExceptT.run (g <$> x) = ExceptT.run x >>= mapCont g := by
    have h0 : (g <$> x : M β) = ExceptT.map g x := rfl
    rw [h0]
    show ExceptT.run x >>= _ = ExceptT.run x >>= mapCont g
    apply bind_congr
    intro res
    cases res <;> rfl
  have e2 : runM (g <$> x) st =
      (ExceptT.run x).run st >>= fun p => (mapCont g p.1).run p.2 := by
    rw [runM, e1, StateT.run_bind]
  rcases hx : runM x st with ⟨r, st2⟩
  have hx2 : (ExceptT.run x).run st = (r, st2) := hx
  rw [e2, hx2]
  rcases r with e | a <;> rfl

/-! ## C10: the `executeJob` running-jobs guard -/

/-- C10: for every invocation of `ExecutionService.executeJob` whose
`origin_jobId` key is not already in `runningJobs`, the call never throws —
it returns a result object (`success` true or false) — and on completion the
`runningJobs` set no longer contains the key (the `finally` clause removes
it on every path); a second concurrent entry with the same key throws
`Job <key> já está em execução` instead of running, leaving the state
untouched. -/
theorem C10_executeJob_guard (jparse : String → Except String JVal)
    (dec : String → Option String) (origin : OriginCfg) (jobCfg : JobCfg)
    (st : SysState) :
    ((origin.name ++ "_" ++ jobCfg.id) ∉ st.runningJobs →
      ∃ r stF, runM (executeJob jparse dec origin jobCfg) st = (Except.ok r, stF) ∧
        (origin.name ++ "_" ++ jobCfg.id) ∉ stF.runningJobs) ∧
    ((origin.name ++ "_" ++ jobCfg.id) ∈ st.runningJobs →
      runM (executeJob jparse dec origin jobCfg) st =
        (Except.error ("Job " ++ (origin.name ++ "_" ++ jobCfg.id) ++ " já está em execução"),
          st)) := by
  constructor
  · intro hnot
    have hc : st.runningJobs.contains (origin.name ++ "_" ++ jobCfg.id) = false := by
      simpa using hnot
    simp only [executeJob, runM_bind, runM_get, runM_set, runM_modify, runM_pure,
      runM_map, runM_tryCatch, runM_throw, hc, Bool.false_eq_true, if_false]
    split
    · rename_i a st2 heq
      refine ⟨a, _, rfl, ?_⟩
      simp [List.mem_filter]
    · rename_i e st2 heq
      split at heq <;> simp at heq
  · intro hmem
    have hc : st.runningJobs.contains (origin.name ++ "_" ++ jobCfg.id) = true := by
      simpa using hmem
    simp only [executeJob, runM_bind, runM_get, runM_throw, hc, if_true]

/-- An all-empty system state, used by concrete runs. -/
def sys0 : SysState :=
  { now := 0, env := [], envCache := [], sessions := [], activeSessions := []
  , runningJobs := [], authRetryAttempted := false, fetches := [], fetchTrace := []
  , dbOutcomes := [], dbTrace := [], transportConnected := false
  , fileOutcomes := [], fileTrace := [] }

/-- A `JSON.parse` oracle that fails on everything. -/
def jparse0 : String → Except String JVal := fun _ => Except.error "Unexpected token"

/-- A decryption oracle that fails on everything. -/
def dec0 : String → Option String := fun _ => none

def orig0 : OriginCfg := { name := "o1", base_url := "http://h", job := [] }

def jobReq0 : JobCfg := { id := "j1" }

def sys1 : SysState := { sys0 with runningJobs := ["o1_j1"] }

/-- Witness for C10 at concrete inputs: a fresh key runs to a result and is
absent from `runningJobs` afterwards; a present key makes the call throw. -/
theorem C10_witness :
    ((orig0.name ++ "_" ++ jobReq0.id) ∉ sys0.runningJobs ∧
      ∃ r stF, runM (executeJob jparse0 dec0 orig0 jobReq0) sys0 = (Except.ok r, stF) ∧
        (orig0.name ++ "_" ++ jobReq0.id) ∉ stF.runningJobs) ∧
    ((orig0.name ++ "_" ++ jobReq0.id) ∈ sys1.runningJobs ∧
      runM (executeJob jparse0 dec0 orig0 jobReq0) sys1 =
        (Except.error ("Job " ++ (orig0.name ++ "_" ++ jobReq0.id) ++ " já está em execução"),
          sys1)) :=
  ⟨⟨by decide, (C10_executeJob_guard jparse0 dec0 orig0 jobReq0 sys0).1 (by decide)⟩,
   ⟨by decide, (C10_executeJob_guard jparse0 dec0 orig0 jobReq0 sys1).2 (by decide)⟩⟩

/-! ## C3: retry policy -/

/-- Under persistently failing fetches whose message names no 4xx status,
the attempt loop entered with `k+1` attempts makes exactly `k+1` fetch calls
and surfaces the error. -/
theorem requestGo_persistent_err (method url : String) (d : Nat) (msg : String)
    (hmsg : jsIncludes msg "HTTP 4" = false) :
    ∀ (k : Nat) (st : SysState) (rest : List FetchOut),
      st.fetches = List.replicate (k + 1) (FetchOut.err msg) ++ rest →
      runM (requestGo method url d (k + 1)) st =
        (Except.error msg,
         { st with fetches := rest,
                   fetchTrace := st.fetchTrace
                     ++ List.replicate (k + 1) (FetchCall.mk method url) }) := by
  intro k
  induction k with
  | zero =>
    intro st rest hf
    have hf1 : st.fetches = FetchOut.err msg :: rest := by simpa using hf
    conv_lhs => rw [requestGo]
    simp only [fetchOnce, runM_bind, runM_get, runM_set, runM_pure, runM_throw, hf1]
    simp [runM_throw]
  | succ k ih =>
    intro st rest hf
    have hf1 : st.fetches
        = FetchOut.err msg :: (List.replicate (k + 1) (FetchOut.err msg) ++ rest) := by
      simpa [List.replicate_succ] using hf
    have hcond : (decide (k + 1 = 0) || (jsIncludes msg "HTTP 4" && !jsIncludes msg "408"))
        = false := by simp [hmsg]
    have hstep := ih
      { st with fetches := List.replicate (k + 1) (FetchOut.err msg) ++ rest
              , fetchTrace := st.fetchTrace ++ [FetchCall.mk method url] } rest rfl
    conv_lhs => rw [requestGo]
    simp only [fetchOnce, runM_bind, runM_get, runM_set, runM_pure, runM_throw, hf1,
      hcond, Bool.false_eq_true, if_false]
    rw [hstep]
    simp [List.replicate_succ, List.append_assoc]

def jobC3 : JobCfg :=
  { id := "j1", method := "GET", path := "p",
    retry_policy := some { max_attempts := some 0 } }

def origC3 : OriginCfg := { name := "o1", base_url := "http://h", job := [jobC3] }

def sysC3 : SysState :=
  { sys0 with fetches := List.replicate 4 (FetchOut.err "ECONNREFUSED") }

/-- C3: the claim says `max_attempts = 0` means exactly one attempt.  The
code computes `retries: retryPolicy.max_attempts || 3`, where `0` is falsy,
so such a job is given the DEFAULT 3 retries: under persistent network
failure it performs exactly 4 fetch attempts before failing (first
conjunct, a full `executeJob` run).  The general attempt law (second
conjunct) holds for the value actually passed: `retries = r` yields `r + 1`
attempts — so the only compliant reading fails for 0, which never reaches
the client. -/
theorem C3_max_attempts_zero (u : String) :
    ((runM (executeJob jparse0 dec0 origC3 jobC3) sysC3).1
        = Except.ok { success := false, jobId := "o1_j1", error := some "ECONNREFUSED" } ∧
      (runM (executeJob jparse0 dec0 origC3 jobC3) sysC3).2.fetchTrace
        = List.replicate 4 (FetchCall.mk "GET" "http://h/p") ∧
      (runM (executeJob jparse0 dec0 origC3 jobC3) sysC3).2.fetches = []) ∧
    (∀ (r : Nat) (st : SysState) (rest : List FetchOut),
      st.fetches = List.replicate (r + 1) (FetchOut.err "ECONNREFUSED") ++ rest →
      runM (httpRequest "GET" u { retries := r }) st =
        (Except.error "ECONNREFUSED",
         { st with fetches := rest,
                   fetchTrace := st.fetchTrace
                     ++ List.replicate (r + 1) (FetchCall.mk "GET" u) })) := by
  refine ⟨⟨rfl, rfl, rfl⟩, ?_⟩
  intro r st rest hf
  exact requestGo_persistent_err "GET" u 1000 "ECONNREFUSED" rfl r st rest hf

def sysC3w : SysState := { sys0 with fetches := [FetchOut.err "ECONNREFUSED"] }

/-- Witness for C3 at concrete inputs: one retryless request consumes one
outcome. -/
theorem C3_witness :
    runM (httpRequest "GET" "u" { retries := 0 }) sysC3w =
      (Except.error "ECONNREFUSED",
       { sysC3w with fetches := [],
                     fetchTrace := sysC3w.fetchTrace
                       ++ List.replicate 1 (FetchCall.mk "GET" "u") }) :=
  (C3_max_attempts_zero "u").2 0 sysC3w [] rfl

/-! ## C9: database sink failures and the orchestrator -/

/-- `processJobOutput` cannot throw: its whole body runs inside a `try`
whose `catch` converts any error into a `success: false` result. -/
theorem processJobOutput_never_throws (dec : String → Option String)
    (jobConfig : JobCfg) (jobResult : ExecResult) (originCfg : OriginCfg)
    (mode : String) (st : SysState) :
    ∃ r st2, runM (processJobOutput dec jobConfig jobResult originCfg mode) st
      = (Except.ok r, st2) := by
  rcases hout : jobConfig.output with _ | oc
  · exact ⟨none, st, by simp [processJobOutput, hout, runM_pure]⟩
  · rcases hoc : oc.enabled with _ | _
    · exact ⟨none, st, by simp [processJobOutput, hout, hoc, runM_pure]⟩
    · simp only [processJobOutput, hout, hoc, Bool.not_true, Bool.false_eq_true,
        if_false, runM_tryCatch]
      split
      · exact ⟨_, _, runM_pure _ _⟩
      · rename_i a st2 heq
        exact ⟨a, st2, rfl⟩

def outC9 : OutputCfg :=
  { enabled := true, type := some "database", driver := some "sqlserver",
    table := some "t", connection_string := some "Server=s;Database=d" }

def jobC9a : JobCfg := { id := "j1", method := "GET", path := "a", output := some outC9 }

def jobC9b : JobCfg := { id := "j2", method := "GET", path := "b", dependencies := ["j1"] }

def origC9 : OriginCfg := { name := "o1", base_url := "http://h", job := [jobC9a, jobC9b] }

def sysC9 : SysState :=
  { sys0 with
    fetches := [FetchOut.resp 200 "OK" [] (JVal.obj [("a", JVal.int 1)]),
                FetchOut.resp 200 "OK" [] (JVal.obj [("b", JVal.int 2)])],
    dbOutcomes := [DbOut.err "conn refused"] }

/-- The stored/returned result object of job `j1` in the C9 scenario. -/
def jrC9a : JVal := JVal.obj
  [ ("data", JVal.obj [("a", JVal.int 1)]), ("headers", JVal.obj [])
  , ("status", JVal.int 200), ("timestamp", JVal.str "iso(0)") ]

def jrC9b : JVal := JVal.obj
  [ ("data", JVal.obj [("b", JVal.int 2)]), ("headers", JVal.obj [])
  , ("status", JVal.int 200), ("timestamp", JVal.str "iso(0)") ]

/-- The state after the first C9 step: the request succeeded, the result was
stored, the sink only managed a failed connect. -/
def sysC9mid : SysState :=
  { sys0 with
    envCache := [("o1", [])],
    sessions := [("job_result_j1", ⟨jrC9a, some 3600000000, 0⟩)],
    fetches := [FetchOut.resp 200 "OK" [] (JVal.obj [("b", JVal.int 2)])],
    fetchTrace := [FetchCall.mk "GET" "http://h/a"],
    dbOutcomes := [], dbTrace := [DbOp.connect "sqlserver" "Server=s;Database=d"] }

/-- The state after both C9 steps. -/
def sysC9end : SysState :=
  { sysC9mid with
    sessions := [("job_result_j1", ⟨jrC9a, some 3600000000, 0⟩),
                 ("job_result_j2", ⟨jrC9b, some 3600000000, 0⟩)],
    fetches := [],
    fetchTrace := [FetchCall.mk "GET" "http://h/a", FetchCall.mk "GET" "http://h/b"] }

/-- C9 counterexample: a two-job chain whose first job has a database sink
and whose database CONNECTION fails.  The claim says this is fatal to the
current job and the orchestrator halts; the run instead completes both jobs
successfully — the whole `runJobs` returns `ok` with both results, the only
database operation on the trace is the failed connect, both HTTP requests
were made, and both `job_result_*` session entries were written. -/
theorem C9_counterexample :
    runM (runJobs jparse0 dec0 origC9 "production" "j2") sysC9
        = (Except.ok [("j1", jrC9a), ("j2", jrC9b)], sysC9end) ∧
    sysC9end.dbTrace = [DbOp.connect "sqlserver" "Server=s;Database=d"] ∧
    sysC9end.fetchTrace = [FetchCall.mk "GET" "http://h/a", FetchCall.mk "GET" "http://h/b"] ∧
    (mapGet sysC9end.sessions "job_result_j1").isSome = true ∧
    (mapGet sysC9end.sessions "job_result_j2").isSome = true := by
  have hord : resolveExecutionOrder origC9.job (some "j2") = Except.ok ["j1", "j2"] := rfl
  have h1 : runM (runJobStep jparse0 dec0 origC9 origC9.job "production" [] "j1") sysC9
      = (Except.ok [("j1", jrC9a)], sysC9mid) := rfl
  have h2 : runM (runJobStep jparse0 dec0 origC9 origC9.job "production"
        [("j1", jrC9a)] "j2") sysC9mid
      = (Except.ok [("j1", jrC9a), ("j2", jrC9b)], sysC9end) := rfl
  refine ⟨?_, rfl, rfl, rfl, rfl⟩
  simp only [runJobs, hord]
  simp only [runJobsLoop, runM_bind, h1, h2, runM_pure]

def respC9 : ExecResponse :=
  { url := "http://h/a", method := "GET", status := 200, statusText := "OK"
  , headers := [], data := JVal.obj [("a", JVal.int 1)], timestamp := "iso(0)" }

def resC9 : ExecResult :=
  { success := true, type := some "request", jobId := "o1_j1", response := some respC9 }

def sysC9b : SysState := { sys0 with dbOutcomes := [DbOut.err "conn refused"] }

/-- C9 (amended): no output failure is fatal — `processJobOutput` never
throws, for any configuration, result and state (first conjunct); a database
connection failure in particular comes back as an ordinary
`success: false` output result, with the failed connect on the trace and the
transport left disconnected (second conjunct), so the orchestrator's loop
continues past it whenever the job itself succeeded. -/
theorem C9_sink_failures_nonfatal :
    (∀ (dec : String → Option String) (jobConfig : JobCfg) (jobResult : ExecResult)
        (originCfg : OriginCfg) (mode : String) (st : SysState),
      ∃ r st2, runM (processJobOutput dec jobConfig jobResult originCfg mode) st
        = (Except.ok r, st2)) ∧
    runM (processJobOutput dec0 jobC9a resC9 origC9 "production") sysC9b =
      (Except.ok (some { success := false, error := some "conn refused" }),
       { sysC9b with dbOutcomes := [],
                     dbTrace := [DbOp.connect "sqlserver" "Server=s;Database=d"] }) :=
  ⟨fun dec jobConfig jobResult originCfg mode st =>
    processJobOutput_never_throws dec jobConfig jobResult originCfg mode st, rfl⟩

/-! ## C7: the empty-array branch of the database sink -/

def outC7 : OutputCfg :=
  { enabled := true, type := some "database", driver := some "sqlserver",
    table := some "t", data_path := some "rows", connection_string := some "cs" }

def metaC7 : OutputMetadata :=
  { originName := some "o1", timestamp := some "iso(0)", mode := some "production",
    jobId := some "j1" }

def sysC7 : SysState :=
  { sys0 with
    transportConnected := true, dbOutcomes := [DbOut.ok []] }

/-- C7 counterexample: with the transport connected and `data_path`
selecting an empty array, `processDatabaseOutput` returns success with zero
rows — but the state is COMPLETELY unchanged: no `CREATE TABLE` (nor any
other database call) happens, because the empty-array early return precedes
`ensureTable`.  The claim's "the target table is still created" is false. -/
theorem C7_counterexample :
    runM (processDatabaseOutput (JVal.obj [("rows", JVal.arr [])]) outC7 metaC7 orig0) sysC7
        = (Except.ok { success := true, table := some "t",
                       recordsInserted := some 0, message := some "Array vazio" }, sysC7) ∧
    sysC7.dbTrace = [] :=
  ⟨rfl, rfl⟩

/-- C7 (amended): whenever the transport is connected, a connection string
is available, and `data_path` selects an empty array, `processDatabaseOutput`
returns success with zero rows inserted and the message `Array vazio`, and
leaves the state untouched — in particular it performs NO database
operation, so no table is created. -/
theorem C7_empty_array_no_table (responseData : JVal) (outputConfig : OutputCfg)
    (metadata : OutputMetadata) (originCfg : OriginCfg) (st : SysState) (dp cs : String)
    (hconn : st.transportConnected = true)
    (hcs : jsOrStrOpt outputConfig.connection_string originCfg.connection_string = some cs)
    (hcsne : cs ≠ "")
    (hdp : outputConfig.data_path = some dp) (hdpne : dp ≠ "")
    (hex : extractValue responseData dp = some (JVal.arr [])) :
    runM (processDatabaseOutput responseData outputConfig metadata originCfg) st =
      (Except.ok { success := true, table := outputConfig.table,
                   recordsInserted := some 0, message := some "Array vazio" }, st) := by
  have hbody : runM (processDatabaseBody responseData outputConfig metadata) st
      = (Except.ok { success := true, table := outputConfig.table,
                     recordsInserted := some 0, message := some "Array vazio" }, st) := by
    simp only [processDatabaseBody, hdp, hex, runM_pure]
    simp [hdpne, runM_pure]
  simp only [processDatabaseOutput, runM_bind, runM_get, hconn, hcs, Bool.not_true,
    Bool.false_eq_true, if_false, runM_tryCatch, hbody]
  simp [hcsne, hbody, runM_tryCatch, runM_pure]

def outC7b : OutputCfg :=
  { enabled := true, type := some "database", driver := some "sqlserver",
    table := some "t2", data_path := some "d.rows" }

def origC7w : OriginCfg :=
  { name := "o1", base_url := "http://h", connection_string := some "ocs" }

/-- Witness for C7 at concrete inputs, with the connection string inherited
from the origin and a nested `data_path`. -/
theorem C7_witness :
    runM (processDatabaseOutput (JVal.obj [("d", JVal.obj [("rows", JVal.arr [])])])
        outC7b metaC7 origC7w) sysC7 =
      (Except.ok { success := true, table := some "t2",
                   recordsInserted := some 0, message := some "Array vazio" }, sysC7) :=
  C7_empty_array_no_table _ _ _ _ _ "d.rows" "ocs" rfl rfl (by decide) rfl (by decide) rfl

/-! ## C8: the auto-id policy of the created table -/

/-- `inferColumnType` only ever produces one of six SQL types. -/
theorem inferColumnType_mem (v : JVal) :
    inferColumnType v = "TEXT" ∨ inferColumnType v = "INTEGER"
      ∨ inferColumnType v = "BIGINT" ∨ inferColumnType v = "REAL"
      ∨ inferColumnType v = "DATETIME" ∨ inferColumnType v = "NVARCHAR(MAX)" := by
  cases v <;> simp only [inferColumnType] <;> first
    | tauto
    | (split <;> tauto)

def meta0 : OutputMetadata := {}

def outC8 : OutputCfg :=
  { enabled := true, type := some "database", driver := some "sqlserver",
    table := some "t", connection_string := some "cs" }

def recC8 : JVal := JVal.obj [("id", JVal.int 1), ("name", JVal.str "x")]

def sysC8 : SysState :=
  { sys0 with
    transportConnected := true,
    dbOutcomes := [DbOut.err "no table", DbOut.ok [],
                   DbOut.ok [JVal.obj [("id", JVal.int 1)]]] }

/-- The `CREATE TABLE` statement the C8 scenario sends: `hasIdColumn` is
true, so the id-column slot is the EMPTY string. -/
def sqlC8 : String :=
  createTableSql "t" [("id", "INTEGER"), ("name", "TEXT"), ("created_at", "DATETIME")] true

def insSqlC8 : String :=
  "INSERT INTO [t] ([id], [name]) OUTPUT INSERTED.id VALUES (@p1, @p2)"

def sysC8end : SysState :=
  { sys0 with
    transportConnected := true, dbOutcomes := [],
    dbTrace := [DbOp.query (getTableColumnsSql "t"), DbOp.query sqlC8,
                DbOp.insert insSqlC8 [JVal.int 1, JVal.str "x"]] }

/-- C8 counterexample: the first record carries a reserved id column, and the
table indeed gets NO IDENTITY column — but the claim's "has that identifier
column as its primary key" is false: the generated `CREATE TABLE` contains no
`PRIMARY KEY` clause at all (the code substitutes the empty string). -/
theorem C8_counterexample :
    hasIdColumn recC8 = true ∧
    runM (processDatabaseOutput (JVal.arr [recC8]) outC8 meta0 orig0) sysC8
        = (Except.ok { success := true, table := some "t", insertId := some "multiple",
                       recordsInserted := some 1 }, sysC8end) ∧
    sysC8end.dbTrace.get? 1 = some (DbOp.query sqlC8) ∧
    jsIncludes sqlC8 "PRIMARY KEY" = false :=
  ⟨rfl, rfl, rfl, by decide⟩

/-- C8 (amended): for every pair of values under the keys `id` and `name`,
the record is detected as carrying its own id; the table then created by the
sink declares NO primary key and no IDENTITY column (its DDL contains no
`PRIMARY KEY` substring at all); when the record has no reserved id column,
the created table gets the `[id] INT IDENTITY(1,1) PRIMARY KEY` column. -/
theorem C8_id_column_no_primary_key (v1 v2 : JVal) :
    hasIdColumn (JVal.obj [("id", v1), ("name", v2)]) = true ∧
    jsIncludes (createTableSql "t"
        (inferColumnsFromData (prepareDataForInsert (JVal.obj [("id", v1), ("name", v2)]) [] meta0))
        true) "PRIMARY KEY" = false ∧
    jsIncludes (createTableSql "t"
        (inferColumnsFromData (prepareDataForInsert (JVal.obj [("name", v2)]) [] meta0))
        false) "[id] INT IDENTITY(1,1) PRIMARY KEY" = true := by
  have h1 := inferColumnType_mem (serializeValue v1)
  have h2 := inferColumnType_mem (serializeValue v2)
  refine ⟨rfl, ?_, ?_⟩
  · have hred : inferColumnsFromData
        (prepareDataForInsert (JVal.obj [("id", v1), ("name", v2)]) [] meta0)
        = [("id", inferColumnType (serializeValue v1)),
           ("name", inferColumnType (serializeValue v2)),
           ("created_at", "DATETIME")] := rfl
    rw [hred]
    rcases h1 with h1|h1|h1|h1|h1|h1 <;> rcases h2 with h2|h2|h2|h2|h2|h2 <;>
      rw [h1, h2] <;> decide
  · have hred : inferColumnsFromData
        (prepareDataForInsert (JVal.obj [("name", v2)]) [] meta0)
        = [("name", inferColumnType (serializeValue v2)),
           ("created_at", "DATETIME")] := rfl
    rw [hred]
    rcases h2 with h2|h2|h2|h2|h2|h2 <;> rw [h2] <;> decide

/-! ## C2: 401 handling and re-authentication -/

def authJobC2 : JobCfg :=
  { id := "a1", type := "auth", method := "POST", path := "login",
    token_identifier := some "token" }

def outC2 : OutputCfg :=
  { enabled := true, type := some "database", driver := some "sqlserver",
    table := some "t", connection_string := some "cs" }

def jobC2 : JobCfg :=
  { id := "r1", method := "GET", path := "p", session_name := some "SESS_A",
    output := some outC2 }

def origC2 : OriginCfg := { name := "o1", base_url := "http://h", job := [authJobC2, jobC2] }

/-- C2 scenario A: a VALID stored token, and an endpoint that answers 401 to
everything. -/
def sysC2 : SysState :=
  { sys0 with
    sessions := [("SESS_A", ⟨JVal.str "tok0", none, 0⟩)],
    activeSessions := [("o1", "SESS_A")],
    fetches := [FetchOut.resp 401 "Unauthorized" [] JVal.null,
                FetchOut.resp 401 "Unauthorized" [] JVal.null] }

def sysC2end : SysState :=
  { sys0 with
    envCache := [("o1", [])],
    sessions := [("SESS_A", ⟨JVal.str "tok0", none, 0⟩)],
    activeSessions := [("o1", "SESS_A")],
    fetchTrace := [FetchCall.mk "GET" "http://h/p", FetchCall.mk "GET" "http://h/p"] }

/-- State A0: after the guard and environment load of the C2 run. -/
def stA : SysState := { sysC2 with envCache := [("o1", [])], runningJobs := ["o1_r1"] }

/-- State A1: one 401 answer consumed. -/
def stA2 : SysState :=
  { stA with fetches := [FetchOut.resp 401 "Unauthorized" [] JVal.null],
             fetchTrace := [FetchCall.mk "GET" "http://h/p"] }

/-- State A2: both 401 answers consumed. -/
def stA3 : SysState :=
  { stA with fetches := [],
             fetchTrace := [FetchCall.mk "GET" "http://h/p", FetchCall.mk "GET" "http://h/p"] }

theorem makeRequestC2A1 : runM (makeRequest dec0 origC2 jobC2) stA
    = (Except.error "HTTP 401: Unauthorized", stA2) := rfl

theorem makeRequestC2A2 : runM (makeRequest dec0 origC2 jobC2) stA2
    = (Except.error "HTTP 401: Unauthorized", stA3) := rfl

theorem refreshC2A : runM (refreshAuthentication dec0 origC2 (findAuthJob origC2)) stA2
    = (Except.ok true, stA2) := rfl

theorem execRequestC2A : runM (executeRequest jparse0 dec0 origC2 jobC2) stA
    = (Except.error "HTTP 401: Unauthorized", stA3) := by
  have hinc : (jsIncludes "HTTP 401: Unauthorized" "HTTP 401" && sessionNameTruthy jobC2)
      = true := rfl
  simp only [executeRequest, runM_bind, runM_tryCatch, makeRequestC2A1, runM_pure, hinc,
    if_true, execCatchRetry, refreshC2A, makeRequestC2A2, runM_throw]

theorem execJobC2A : runM (executeJob jparse0 dec0 origC2 jobC2) sysC2
    = (Except.ok { success := false, jobId := "o1_r1",
                   error := some "HTTP 401: Unauthorized" }, sysC2end) := by
  have hc : sysC2.runningJobs.contains (origC2.name ++ "_" ++ jobC2.id) = false := rfl
  have hload : runM (envLoad origC2.name)
      { sysC2 with runningJobs := sysC2.runningJobs ++ [origC2.name ++ "_" ++ jobC2.id] }
      = (Except.ok PUnit.unit, stA) := rfl
  have hrefA : runM (refreshAuthentication dec0 origC2 (findAuthJob origC2)) stA
      = (Except.ok true, stA) := rfl
  have h1 : (jobC2.type = "auth") = False := by simp only [jobC2]; decide
  have h2 : (jobC2.type = "request") = True := by simp [jobC2]
  have h3 : sessionNameTruthy jobC2 = true := rfl
  simp only [executeJob, runM_bind, runM_get, hc, Bool.false_eq_true, if_false, runM_set,
    runM_tryCatch, hload, h1, h2, h3, eq_self_iff_true, if_true, hrefA, execRequestC2A,
    runM_pure, runM_modify, runM_throw]
  rfl

/-- C2 counterexample: on a 401 with a still-valid session token, the code
does NOT force-refresh: `refreshAuthentication` sees `isAuthenticated` and
returns without re-authenticating.  In the run below the fetch trace holds
exactly the two identical data requests — no authentication request was ever
made — and the session store is bit-for-bit unchanged, yet the claim demands
a forced token refresh between the two attempts. -/
theorem C2_counterexample :
    runM (executeJob jparse0 dec0 origC2 jobC2) sysC2
        = (Except.ok { success := false, jobId := "o1_r1",
                       error := some "HTTP 401: Unauthorized" }, sysC2end) ∧
    sysC2end.fetchTrace = [FetchCall.mk "GET" "http://h/p", FetchCall.mk "GET" "http://h/p"] ∧
    sysC2end.sessions = sysC2.sessions ∧
    sysC2end.activeSessions = sysC2.activeSessions :=
  ⟨execJobC2A, rfl, rfl, rfl⟩

/-- C2 scenario B: no valid token; the auth endpoint issues `tokN`; the data
endpoint answers 401 once, then succeeds. -/
def sysC2b : SysState :=
  { sys0 with
    activeSessions := [("o1", "SESS_A")],
    fetches := [FetchOut.resp 200 "OK" [] (JVal.obj [("token", JVal.str "tokN")]),
                FetchOut.resp 401 "Unauthorized" [] JVal.null,
                FetchOut.resp 200 "OK" [] (JVal.obj [("d", JVal.int 7)])] }

def respC2b : ExecResponse :=
  { url := "http://h/p", method := "GET", status := 200, statusText := "OK"
  , headers := [], data := JVal.obj [("d", JVal.int 7)], timestamp := "iso(0)" }

def sysC2bEnd : SysState :=
  { sys0 with
    envCache := [("o1", [])],
    sessions := [("SESSION_O1_TOKEN", ⟨JVal.str "tokN", some 3600000, 0⟩)],
    activeSessions := [("o1", "SESSION_O1_TOKEN")],
    fetchTrace := [FetchCall.mk "POST" "http://h/login", FetchCall.mk "GET" "http://h/p",
                   FetchCall.mk "GET" "http://h/p"] }

/-- State B0: after the guard and environment load of the scenario-B run. -/
def stB0 : SysState :=
  { sysC2b with envCache := [("o1", [])], runningJobs := ["o1_r1"] }

/-- State B1: authenticated — the new token is stored, the auth fetch done. -/
def stB1 : SysState :=
  { stB0 with
    sessions := [("SESSION_O1_TOKEN", ⟨JVal.str "tokN", some 3600000, 0⟩)],
    activeSessions := [("o1", "SESSION_O1_TOKEN")],
    fetches := [FetchOut.resp 401 "Unauthorized" [] JVal.null,
                FetchOut.resp 200 "OK" [] (JVal.obj [("d", JVal.int 7)])],
    fetchTrace := [FetchCall.mk "POST" "http://h/login"] }

/-- State B2: the 401 answer consumed. -/
def stB2 : SysState :=
  { stB1 with fetches := [FetchOut.resp 200 "OK" [] (JVal.obj [("d", JVal.int 7)])],
              fetchTrace := [FetchCall.mk "POST" "http://h/login",
                             FetchCall.mk "GET" "http://h/p"] }

/-- State B3: the final 200 answer consumed. -/
def stB3 : SysState :=
  { stB1 with fetches := [],
              fetchTrace := [FetchCall.mk "POST" "http://h/login",
                             FetchCall.mk "GET" "http://h/p",
                             FetchCall.mk "GET" "http://h/p"] }

def httpRespC2b : HttpResp :=
  { status := 200, statusText := "OK", headers := [], data := JVal.obj [("d", JVal.int 7)],
    url := "http://h/p" }

theorem refreshC2B0 : runM (refreshAuthentication dec0 origC2 (findAuthJob origC2)) stB0
    = (Except.ok true, stB1) := rfl

theorem refreshC2B2 : runM (refreshAuthentication dec0 origC2 (findAuthJob origC2)) stB2
    = (Except.ok true, stB2) := rfl

theorem makeRequestC2B1 : runM (makeRequest dec0 origC2 jobC2) stB1
    = (Except.error "HTTP 401: Unauthorized", stB2) := rfl

theorem makeRequestC2B2 : runM (makeRequest dec0 origC2 jobC2) stB2
    = (Except.ok (httpRespC2b, "http://h/p"), stB3) := rfl

theorem execRequestC2B : runM (executeRequest jparse0 dec0 origC2 jobC2) stB1
    = (Except.ok respC2b, stB3) := by
  have hinc : (jsIncludes "HTTP 401: Unauthorized" "HTTP 401" && sessionNameTruthy jobC2)
      = true := rfl
  have hpr : processResponse httpRespC2b jobC2.response_format jparse0
      = Except.ok (JVal.obj [("d", JVal.int 7)]) := rfl
  simp only [executeRequest, runM_bind, runM_tryCatch, makeRequestC2B1, runM_pure, hinc,
    if_true, execCatchRetry, refreshC2B2, makeRequestC2B2, hpr, runM_get, runM_throw]
  rfl

theorem execJobC2B : runM (executeJob jparse0 dec0 origC2 jobC2) sysC2b
    = (Except.ok { success := true, type := some "request", jobId := "o1_r1",
                   response := some respC2b }, sysC2bEnd) := by
  have hc : sysC2b.runningJobs.contains (origC2.name ++ "_" ++ jobC2.id) = false := rfl
  have hload : runM (envLoad origC2.name)
      { sysC2b with runningJobs := sysC2b.runningJobs ++ [origC2.name ++ "_" ++ jobC2.id] }
      = (Except.ok PUnit.unit, stB0) := rfl
  have h1 : (jobC2.type = "auth") = False := by simp only [jobC2]; decide
  have h2 : (jobC2.type = "request") = True := by simp [jobC2]
  have h3 : sessionNameTruthy jobC2 = true := rfl
  simp only [executeJob, runM_bind, runM_get, hc, Bool.false_eq_true, if_false, runM_set,
    runM_tryCatch, hload, h1, h2, h3, eq_self_iff_true, if_true, refreshC2B0,
    execRequestC2B, runM_pure, runM_modify, runM_throw]
  rfl

theorem runJobStepC2 :
    runM (runJobStep jparse0 dec0 origC2 origC2.job "production" [] "r1") sysC2
    = (Except.error "Falha no job r1: HTTP 401: Unauthorized", sysC2end) := by
  have hfind : origC2.job.find? (fun j => j.id = "r1") = some jobC2 := rfl
  have hsub : substituteDeepJobCfg dec0 (fun k => mapGet sysC2.env k) sysC2.envCache
      (some origC2.name) [] jobC2 = jobC2 := rfl
  simp only [runJobStep, hfind, runM_bind, runM_get, hsub, execJobC2A, runM_throw]
  rfl

/-- C2 (amended): re-authentication on 401 is CONDITIONAL, not forced.
First conjunct (scenario B): with no valid token, the job authenticates
(one `POST /login`), stores the new token, and after a 401 replays the
request exactly once, succeeding — three fetches in all.  Second and third
conjuncts (scenario A, via the orchestrator step): when a valid token is
stored, a second 401 fails the job — the step throws `Falha no job …`
before any output processing, so no sink is invoked (empty database and
file traces) even though a database output is configured. -/
theorem C2_conditional_reauth :
    (runM (executeJob jparse0 dec0 origC2 jobC2) sysC2b
        = (Except.ok { success := true, type := some "request", jobId := "o1_r1",
                       response := some respC2b }, sysC2bEnd) ∧
      sysC2bEnd.fetchTrace
        = [FetchCall.mk "POST" "http://h/login", FetchCall.mk "GET" "http://h/p",
           FetchCall.mk "GET" "http://h/p"] ∧
      mapGet sysC2bEnd.sessions "SESSION_O1_TOKEN"
        = some ⟨JVal.str "tokN", some 3600000, 0⟩) ∧
    (runM (runJobStep jparse0 dec0 origC2 origC2.job "production" [] "r1") sysC2
        = (Except.error "Falha no job r1: HTTP 401: Unauthorized", sysC2end) ∧
      sysC2end.dbTrace = [] ∧ sysC2end.fileTrace = []) :=
  ⟨⟨execJobC2B, rfl, rfl⟩, ⟨runJobStepC2, rfl, rfl⟩⟩

/-! ## C5: `$ENV_` substitution versus textual replacement

`replaceEnvFoo` is SPEC-MODELLED: it is the plain textual replacement the
claim describes (each occurrence of the placeholder replaced by the value),
written to be compared with the code-side `substituteModel`. -/

/-- Spec-side textual replacement of every occurrence of the placeholder
`$ENV_FOO` by `val` (left to right, non-overlapping). -/
def replaceEnvFoo (val : String) : List Char → List Char
  | '$' :: 'E' :: 'N' :: 'V' :: '_' :: 'F' :: 'O' :: 'O' :: rest =>
    val.toList ++ replaceEnvFoo val rest
  | c :: cs => c :: replaceEnvFoo val cs
  | [] => []

/-- A position does not start a LONGER placeholder than `$ENV_FOO` (the
regex is maximal-munch: `$ENV_FOOD` captures the name `FOOD`, not `FOO`). -/
def noBadFooAt : List Char → Bool
  | '$' :: 'E' :: 'N' :: 'V' :: '_' :: 'F' :: 'O' :: 'O' :: rest =>
    (match rest with
     | [] => true
     | c :: _ => !identChar c)
  | _ => true

/-- No occurrence of `$ENV_FOO` in the string is followed by a name
character. -/
def noBadFoo (s : List Char) : Bool := s.tails.all noBadFooAt

theorem noBadFoo_tail {c : Char} {cs : List Char} (h : noBadFoo (c :: cs) = true) :
    noBadFoo cs = true := by
  simp only [noBadFoo, List.tails_cons, List.all_cons, Bool.and_eq_true] at h
  exact h.2

theorem noBadFoo_suffix {t s : List Char} (h : t <:+ s) (hs : noBadFoo s = true) :
    noBadFoo t = true := by
  simp only [noBadFoo, List.all_eq_true] at hs ⊢
  intro u hu
  exact hs u ((List.mem_tails _ _).mpr (((List.mem_tails _ _).mp hu).trans h))

theorem noBadFoo_head {s : List Char} (hs : noBadFoo s = true) : noBadFooAt s = true := by
  simp only [noBadFoo, List.all_eq_true] at hs
  exact hs s ((List.mem_tails _ _).mpr (List.suffix_refl s))

/-- A cons cell that does not begin with `$ENV_` is copied. -/
theorem replaceEnvFoo_cons (val : String) (c : Char) (cs : List Char)
    (h : ∀ rest, c = '$' → cs = 'E' :: 'N' :: 'V' :: '_' :: rest → False) :
    replaceEnvFoo val (c :: cs) = c :: replaceEnvFoo val cs := by
  conv_lhs => rw [replaceEnvFoo.eq_def]
  split
  · rename_i rest heq
    simp only [List.cons.injEq] at heq
    exact (h ('F' :: 'O' :: 'O' :: rest) heq.1 heq.2).elim
  · rename_i c2 cs2 hno heq
    cases heq
    rfl
  · rename_i heq
    exact absurd heq (by simp)

/-- A dollar-free prefix passes through the replacement untouched. -/
theorem replaceEnvFoo_append (val : String) (l r : List Char)
    (h : ∀ c ∈ l, ¬c = '$') :
    replaceEnvFoo val (l ++ r) = l ++ replaceEnvFoo val r := by
  induction l with
  | nil => simp
  | cons c l2 ih =>
    rw [List.cons_append,
      replaceEnvFoo_cons val c (l2 ++ r)
        (fun rest hc _ => h c (List.mem_cons_self c l2) hc)]
    rw [ih (fun x hx => h x (List.mem_cons_of_mem c hx))]
    rfl

/-- A `$ENV_` head whose name part is not exactly `FOO` is copied through the
five marker characters. -/
theorem replaceEnvFoo_envprefix (val : String) (head : Char) (rest : List Char)
    (h : ∀ r, head = 'F' → rest = 'O' :: 'O' :: r → False) :
    replaceEnvFoo val ('$' :: 'E' :: 'N' :: 'V' :: '_' :: head :: rest)
      = '$' :: 'E' :: 'N' :: 'V' :: '_' :: replaceEnvFoo val (head :: rest) := by
  conv_lhs => rw [replaceEnvFoo.eq_def]
  split
  · rename_i r heq
    simp only [List.cons.injEq, true_and] at heq
    exact (h r heq.1 heq.2).elim
  · rename_i c2 cs2 hno heq
    cases heq
    simp [replaceEnvFoo]
  · rename_i heq
    exact absurd heq (by simp)

/-- The `$ENV_` pass, on a string whose `$ENV_FOO` occurrences are maximal
matches, coincides with textual replacement when the environment binds
exactly `ENV_FOO`. -/
theorem envScan_replaceEnvFoo (env : String → Option String) (val : String)
    (henv : ∀ nm : List Char, env ("ENV_" ++ String.mk nm)
      = if nm = ['F', 'O', 'O'] then some val else none) :
    ∀ (fuel : Nat) (s : List Char), s.length < fuel → noBadFoo s = true →
      envScan env fuel s = replaceEnvFoo val s := by
  intro fuel s
  induction fuel, s using envScan.induct env with
  | case1 s =>
    intro hlen _
    exact absurd hlen (Nat.not_lt_zero _)
  | case2 fuel2 =>
    intro _ _
    rfl
  | case3 fuel2 =>
    intro _ _
    rfl
  | case4 fuel2 head rest hid t hsome ih =>
    intro hlen hok
    rw [henv] at hsome
    split at hsome
    · rename_i hname
      simp only [List.cons.injEq] at hname
      obtain ⟨hhead, htake⟩ := hname
      obtain rfl := Option.some.inj hsome
      have hrest : rest = 'O' :: 'O' :: List.dropWhile identChar rest := by
        conv_lhs => rw [← List.takeWhile_append_dropWhile (p := identChar) (l := rest)]
        rw [htake]
        rfl
      have hlhs : envScan env (fuel2 + 1) ('$' :: 'E' :: 'N' :: 'V' :: '_' :: head :: rest)
          = val.toList ++ envScan env fuel2 (List.dropWhile identChar rest) := by
        rw [envScan.eq_def]
        simp only [hid, if_true]
        rw [henv]
        simp [hhead, htake]
      rw [hlhs]
      conv_rhs => rw [hhead, hrest]
      rw [show replaceEnvFoo val
          ('$' :: 'E' :: 'N' :: 'V' :: '_' :: 'F' :: 'O' :: 'O'
            :: List.dropWhile identChar rest)
          = val.toList ++ replaceEnvFoo val (List.dropWhile identChar rest) from rfl]
      rw [ih ?hl ?hb]
      case hl =>
        have h1 : (List.dropWhile identChar rest).length ≤ rest.length :=
          (List.dropWhile_suffix identChar).length_le
        simp only [List.length_cons] at hlen
        omega
      case hb =>
        refine noBadFoo_suffix ?_ hok
        refine List.IsSuffix.trans (List.dropWhile_suffix _) ?_
        exact ⟨['$', 'E', 'N', 'V', '_', head], rfl⟩
    · exact absurd hsome (by simp)
  | case5 fuel2 head rest hid hnone ih =>
    intro hlen hok
    rw [henv] at hnone
    have hname : ¬(head :: List.takeWhile identChar rest = ['F', 'O', 'O']) := by
      intro hfoo
      rw [if_pos hfoo] at hnone
      exact absurd hnone (by simp)
    have hlhs : envScan env (fuel2 + 1) ('$' :: 'E' :: 'N' :: 'V' :: '_' :: head :: rest)
        = '$' :: 'E' :: 'N' :: 'V' :: '_' :: head ::
            (List.takeWhile identChar rest ++ envScan env fuel2 (List.dropWhile identChar rest)) := by
      rw [envScan.eq_def]
      simp only [hid, if_true]
      rw [henv]
      rw [if_neg hname]
    have hnofire : ∀ r, head = 'F' → rest = 'O' :: 'O' :: r → False := by
      intro r hhead hr
      by_cases hcase : identChar (r.headI) = true ∧ r ≠ []
      · have hat := noBadFoo_head hok
        rw [hhead, hr] at hat
        rcases r with _ | ⟨rc, rrest⟩
        · exact hcase.2 rfl
        · simp only [noBadFooAt, List.headI] at hat hcase
          rw [hcase.1] at hat
          exact absurd hat (by simp)
      · have hrtake : List.takeWhile identChar r = [] := by
          rcases r with _ | ⟨rc, rrest⟩
          · rfl
          · rw [List.takeWhile_cons]
            have : ¬identChar rc = true := by
              intro hc
              exact hcase ⟨by simpa [List.headI] using hc, by simp⟩
            simp [this]
        apply hname
        rw [hhead, hr, List.takeWhile_cons, List.takeWhile_cons]
        have hoc : identChar 'O' = true := by decide
        simp [hoc, hrtake]
    have hnodollar : ∀ c ∈ head :: List.takeWhile identChar rest, ¬c = '$' := by
      intro c hc
      rcases List.mem_cons.mp hc with hch | hct
      · subst hch
        intro hd
        rw [hd] at hid
        exact absurd hid (by decide)
      · intro hd
        have hcid : identChar c = true := List.mem_takeWhile_imp hct
        rw [hd] at hcid
        exact absurd hcid (by decide)
    rw [hlhs, replaceEnvFoo_envprefix val head rest hnofire]
    have hsplit : head :: rest
        = (head :: List.takeWhile identChar rest) ++ List.dropWhile identChar rest := by
      rw [List.cons_append, List.takeWhile_append_dropWhile]
    conv_rhs => rw [hsplit]
    rw [replaceEnvFoo_append val _ _ hnodollar]
    rw [ih ?hl2 ?hb2]
    case hl2 =>
      have h1 : (List.dropWhile identChar rest).length ≤ rest.length :=
        (List.dropWhile_suffix identChar).length_le
      simp only [List.length_cons] at hlen
      omega
    case hb2 =>
      refine noBadFoo_suffix ?_ hok
      refine List.IsSuffix.trans (List.dropWhile_suffix _) ?_
      exact ⟨['$', 'E', 'N', 'V', '_', head], rfl⟩
    simp
  | case6 fuel2 head rest hid ih =>
    intro hlen hok
    have hlhs : envScan env (fuel2 + 1) ('$' :: 'E' :: 'N' :: 'V' :: '_' :: head :: rest)
        = '$' :: 'E' :: 'N' :: 'V' :: '_' :: envScan env fuel2 (head :: rest) := by
      rw [envScan.eq_def]
      simp only [hid, if_false, Bool.false_eq_true]
    have hnofire : ∀ r, head = 'F' → rest = 'O' :: 'O' :: r → False := by
      intro r hhead _
      rw [hhead] at hid
      exact hid (by decide)
    rw [hlhs, replaceEnvFoo_envprefix val head rest hnofire]
    rw [ih ?hl3 ?hb3]
    case hl3 =>
      simp only [List.length_cons] at hlen ⊢
      omega
    case hb3 =>
      refine noBadFoo_suffix ?_ hok
      exact ⟨['$', 'E', 'N', 'V', '_'], rfl⟩
  | case7 fuel2 c cs hno ih =>
    intro hlen hok
    have hlhs : envScan env (fuel2 + 1) (c :: cs) = c :: envScan env fuel2 cs := by
      rw [envScan.eq_def]
      split
      · rename_i heq
        exact absurd heq (by omega)
      · split
        · rename_i heq
          exact absurd heq (by simp)
        · rename_i heq
          simp only [List.cons.injEq] at heq
          exact (hno _ heq.1 heq.2).elim
        · rename_i f1 f2 hf s0 c2 cs2 h9 heq
          cases heq
          obtain rfl : f2 = fuel2 := by omega
          rfl
    rw [hlhs, replaceEnvFoo_cons val c cs hno]
    rw [ih ?hl4 ?hb4]
    case hl4 =>
      simp only [List.length_cons] at hlen
      omega
    case hb4 => exact noBadFoo_tail hok

/-- With no job results, every template path fails to resolve. -/
theorem tmplResolve_nil (p : String) : tmplResolve [] p = none := by
  unfold tmplResolve resolveTemplatePath
  split
  · rename_i v heq
    simp only [] at heq
    split at heq
    · exact absurd heq (by simp)
    · split at heq
      · exact absurd heq (by simp)
      · simp [mapGet] at heq
  · rfl

/-- When no template path resolves, the template pass is the identity. -/
theorem tmplScan_id (resolve : String → Option String)
    (hres : ∀ p, resolve p = none) :
    ∀ (fuel : Nat) (s : List Char), s.length < fuel → tmplScan resolve fuel s = s := by
  intro fuel s
  induction fuel, s using tmplScan.induct resolve with
  | case1 s =>
    intro hlen
    exact absurd hlen (Nat.not_lt_zero _)
  | case2 fuel2 =>
    intro _
    rfl
  | case3 fuel2 =>
    intro _
    rfl
  | case4 fuel2 rest1 htake ih =>
    intro hlen
    rw [tmplScan.eq_def]
    simp only [eq_self_iff_true, if_true, htake]
    rw [ih (by simp only [List.length_cons] at hlen ⊢; omega)]
  | case5 fuel2 rest1 head rest htake c1 rest2 t hsome hdrop ih =>
    intro hlen
    rw [hres] at hsome
    exact absurd hsome (by simp)
  | case6 fuel2 rest1 head rest htake c1 rest2 hnone hdrop ih =>
    intro hlen
    have hsuf : (c1 :: rbrace :: rest2).length ≤ rest1.length := by
      rw [← hdrop]
      exact (List.dropWhile_suffix _).length_le
    simp only [List.length_cons] at hsuf hlen
    rw [tmplScan.eq_def]
    simp only [eq_self_iff_true, if_true, htake, hdrop, hnone]
    rw [ih (by omega)]
    conv_rhs => rw [← List.takeWhile_append_dropWhile
      (p := fun c => !decide (c = rbrace)) (l := rest1), htake, hdrop]
  | case7 fuel2 rest1 head rest htake c1 c2 rest2 hdrop hne ih =>
    intro hlen
    rw [tmplScan.eq_def]
    simp only [eq_self_iff_true, if_true, htake, hdrop, if_neg hne]
    rw [ih (by simp only [List.length_cons] at hlen ⊢; omega)]
  | case8 fuel2 rest1 head rest htake hdropno ih =>
    intro hlen
    rw [tmplScan.eq_def]
    simp only [eq_self_iff_true, if_true, htake]
    rw [ih (by simp only [List.length_cons] at hlen ⊢; omega)]
  | case9 fuel2 head rest hne ih =>
    intro hlen
    rw [tmplScan.eq_def]
    simp only [eq_self_iff_true, if_true, if_neg hne]
    rw [ih (by simp only [List.length_cons] at hlen ⊢; omega)]
  | case10 fuel2 head rest hne ih =>
    intro hlen
    rw [tmplScan.eq_def]
    simp only [if_neg hne]
    rw [ih (by simp only [List.length_cons] at hlen ⊢; omega)]

/-- A process environment binding exactly `ENV_FOO` (the `ENV_` prefix is part
of the variable name looked up by the code). -/
def fooEnv (val : String) : String → Option String :=
  fun k => if k = "ENV_FOO" then some val else none

/-- With no per-origin cache and no origin, the lookup of the scanned name
against `fooEnv` hits exactly when the name part is `FOO`. -/
theorem envVarLookup_foo (val : String) (nm : List Char) :
    envVarLookup (fooEnv val) [] none ("ENV_" ++ String.mk nm)
      = if nm = ['F', 'O', 'O'] then some val else none := by
  have hiff : (("ENV_" ++ String.mk nm) = "ENV_FOO") ↔ nm = ['F', 'O', 'O'] := by
    rw [String.ext_iff]
    show ('E' :: 'N' :: 'V' :: '_' :: nm) = ('E' :: 'N' :: 'V' :: '_' :: ['F', 'O', 'O']) ↔ _
    simp only [List.cons.injEq, true_and]
  show (if ("ENV_" ++ String.mk nm) = "ENV_FOO" then some val else none) = _
  by_cases h : nm = ['F', 'O', 'O']
  · rw [if_pos (hiff.mpr h), if_pos h]
  · rw [if_neg (fun hc => h (hiff.mp hc)), if_neg h]

/-- C5 (amended): for a non-`ENC:` input whose `$ENV_FOO` occurrences are all
maximal matches (never followed by another name character), with the process
environment binding `ENV_FOO := val`, no per-origin cache, no origin and no
job results, `EnvironmentService.substitute` IS the plain textual replacement
of every `$ENV_FOO` by `val`.  (`replaceEnvFoo` is the spec-modelled textual
replacement.)  The claim as frozen, with the environment binding `FOO`
instead, is refuted by `C5_counterexample`: the code looks up the variable
named `ENV_FOO`, prefix included. -/
theorem C5_substitute_textual (dec : String → Option String) (val s : String)
    (henc : listPrefixOf ("ENC:".toList) s.toList = false)
    (hok : noBadFoo s.toList = true) :
    substituteModel dec (fooEnv val) [] none [] s
      = String.mk (replaceEnvFoo val s.toList) := by
  unfold substituteModel
  rw [henc]
  simp only [Bool.false_eq_true, if_false]
  have h1 : envScan (envVarLookup (fooEnv val) [] none) (s.length + 1) s.toList
      = replaceEnvFoo val s.toList :=
    envScan_replaceEnvFoo (envVarLookup (fooEnv val) [] none) val
      (envVarLookup_foo val) (s.length + 1) s.toList (Nat.lt_succ_self _) hok
  rw [h1]
  exact congrArg String.mk
    (tmplScan_id (tmplResolve []) tmplResolve_nil _ _ (Nat.lt_succ_self _))

/-- C5: the claim as frozen fails — when the environment defines `FOO=bar`
(and not `ENV_FOO`), the code leaves `$ENV_FOO` literal instead of producing
the textual replacement, because `EnvironmentService.substitute` looks up the
variable named `ENV_FOO` (prefix included). -/
theorem C5_counterexample :
    substituteModel dec0 (fun k => if k = "FOO" then some "bar" else none)
        [] none [] "x $ENV_FOO y" = "x $ENV_FOO y"
    ∧ "x $ENV_FOO y" ≠ "x bar y" := by
  exact ⟨rfl, by decide⟩

theorem C5_witness :
    listPrefixOf ("ENC:".toList) ("a $ENV_FOO-b $ENV_FOO".toList) = false
    ∧ noBadFoo ("a $ENV_FOO-b $ENV_FOO".toList) = true
    ∧ substituteModel dec0 (fooEnv "bar") [] none [] "a $ENV_FOO-b $ENV_FOO"
        = String.mk (replaceEnvFoo "bar" ("a $ENV_FOO-b $ENV_FOO".toList))
    ∧ String.mk (replaceEnvFoo "bar" ("a $ENV_FOO-b $ENV_FOO".toList))
        = "a bar-b bar" :=
  ⟨by decide, by decide,
   C5_substitute_textual dec0 "bar" "a $ENV_FOO-b $ENV_FOO" (by decide) (by decide),
   by decide⟩

end Gicli
